import Mathlib

/-!
Verification of the MoneyRite release-safety and calculation-integrity engine
(moneyrite/utils.py, moneyrite/rate_engine.py, moneyrite/resilience.py,
moneyrite/feature_flags.py).

Modelling conventions:
* Python Decimal values are modelled as rationals.  Where a claim depends on
  the Decimal context (28 significant digits, ROUND_HALF_EVEN) the context
  rounding is modelled explicitly (decRound below); where every operation in
  the source stays far below 28 significant digits (the tax calculator, whose
  rates have 2-digit coefficients and whose inputs are monetary amounts) the
  arithmetic is exact and is modelled by exact rational arithmetic.
* The Django cache / filesystem backing stores are modelled as explicit
  association lists or functions passed through the operations.
* hashlib.sha256 is modelled as a function parameter on the canonical
  serialization tree; where a property needs collision-freeness it is stated
  for an arbitrary injective hash.
-/

namespace Moneyrite

/-! ## Model of Python decimal context arithmetic (prec = 28, ROUND_HALF_EVEN)

A Decimal value is modelled by its exact rational value.  An arithmetic
operation computes the exact rational result and rounds it to 28 significant
digits with ties to even, which is exactly what the default decimal context
does to the coefficient of a result. -/

/-- Round a rational to an integer, ties to even. -/
def rndHalfEven (x : ℚ) : ℤ :=
  let f := ⌊x⌋
  let r := x - f
  if r < 1/2 then f
  else if 1/2 < r then f + 1
  else if f % 2 = 0 then f else f + 1

/-- Context rounding of an exact rational result to 28 significant decimal
digits, ties to even (the default decimal context used by moneyrite).
Int.log 10 of the absolute value locates the leading digit. -/
def decRound (q : ℚ) : ℚ :=
  if q = 0 then 0
  else
    let s : ℤ := 27 - Int.log 10 |q|
    (rndHalfEven (q * (10 : ℚ) ^ s) : ℚ) / (10 : ℚ) ^ s

/-- Decimal multiplication under the default context. -/
def decMul (a b : ℚ) : ℚ := decRound (a * b)

/-- Decimal division under the default context. -/
def decDiv (a b : ℚ) : ℚ := decRound (a / b)

/-! ## moneyrite/utils.py : validate_financial_input

Python values that can reach validate_financial_input are modelled by PyVal:
None, a string, or a numeric value (int / float / Decimal, modelled by its
rational value; Decimal(str(value)) on a numeric value is the identity). -/

/-- A caller-supplied financial input value. -/
inductive PyVal where
  | none : PyVal
  | str (s : String) : PyVal
  | num (q : ℚ) : PyVal
deriving DecidableEq

/-- The typed errors raised by validate_financial_input. -/
inductive FinError where
  | typeError : FinError
  | valueError : FinError
deriving DecidableEq

/-- Strip leading and trailing whitespace (model of str.strip). -/
def stripWS (s : String) : List Char :=
  ((s.toList.dropWhile Char.isWhitespace).reverse.dropWhile Char.isWhitespace).reverse

/-- Value of a list of decimal digit characters. -/
def digitsVal (l : List Char) : ℕ :=
  l.foldl (fun acc c => acc * 10 + (c.toNat - 48)) 0

/-- Are all characters decimal digits? -/
def allDigits (l : List Char) : Bool := l.all Char.isDigit

/-- Parse an optional sign, returning the sign and the rest. -/
def parseSign : List Char → ℚ × List Char
  | '-' :: rest => (-1, rest)
  | '+' :: rest => (1, rest)
  | l => (1, l)

/-- Parse the mantissa of a decimal literal: digits with an optional single
decimal point, at least one digit overall. -/
def parseMantissa (l : List Char) : Option ℚ :=
  match l.splitOn '.' with
  | [a] => if a ≠ [] ∧ allDigits a then some (digitsVal a) else Option.none
  | [a, b] =>
    if (a ++ b) ≠ [] ∧ allDigits a ∧ allDigits b then
      some ((digitsVal (a ++ b) : ℚ) / (10 : ℚ) ^ b.length)
    else Option.none
  | _ => Option.none

/-- Parse an exponent part: optional sign followed by digits. -/
def parseExpPart (l : List Char) : Option ℤ :=
  let (sg, rest) := parseSign l
  if rest ≠ [] ∧ allDigits rest then some ((if sg = 1 then 1 else -1) * (digitsVal rest : ℤ))
  else Option.none

/-- Model of the Decimal string constructor on an ordinary numeric literal:
optional sign, digits with optional decimal point, optional exponent.
(The special literals Infinity / NaN are outside the model.) -/
def parseDecimal (s : String) : Option ℚ :=
  let l := (stripWS s).map Char.toLower
  let (sg, rest) := parseSign l
  match rest.splitOn 'e' with
  | [m] => (parseMantissa m).map (sg * ·)
  | [m, ex] => do
    let mv ← parseMantissa m
    let e ← parseExpPart ex
    pure (sg * mv * (10 : ℚ) ^ e)
  | _ => Option.none

/-- validate_financial_input : reject None with TypeError, empty and
non-numeric strings and negative amounts with ValueError, otherwise return
the validated value. -/
def validate_financial_input (v : PyVal) : Except FinError ℚ :=
  match v with
  | .none => .error .typeError
  | .str s =>
    if stripWS s = [] then .error .valueError
    else
      match parseDecimal s with
      | Option.none => .error .valueError
      | some q => if q < 0 then .error .valueError else .ok q
  | .num q => if q < 0 then .error .valueError else .ok q

/-! ## moneyrite/utils.py : SARSTaxCalculator

The rate-engine path of get_tax_brackets needs a live Django cache; the
src-resident pure path is the hardcoded fallback table, which is what the
calculator uses whenever the engine is unavailable.  The bracket limits are
modelled by Option (none is the float('inf') top bracket). -/

def FALLBACK_TAX_BRACKETS : List (Option ℚ × ℚ) :=
  [(some 237100, 0.18), (some 370500, 0.26), (some 512800, 0.31),
   (some 673000, 0.36), (some 857900, 0.39), (some 1817000, 0.41),
   (Option.none, 0.45)]

def FALLBACK_PRIMARY_REBATE : ℚ := 17235
def FALLBACK_SECONDARY_REBATE : ℚ := 3300
def FALLBACK_TERTIARY_REBATE : ℚ := 1470

def FALLBACK_UIF_RATE : ℚ := 0.01
def FALLBACK_UIF_MONTHLY_CAP : ℚ := 177.12

def FALLBACK_MEDICAL_CREDIT_MAIN : ℚ := 364
def FALLBACK_MEDICAL_CREDIT_DEPENDENT : ℚ := 364
def FALLBACK_MEDICAL_CREDIT_ADDITIONAL : ℚ := 246

def get_tax_brackets : List (Option ℚ × ℚ) := FALLBACK_TAX_BRACKETS

/-- The cumulative bracket walk of _calculate_annual_tax_impl: for each
bracket, tax min(income, limit) - previous_limit at the bracket rate, with
the loop break conditions of the source (income at or below the previous
limit stops; the infinite bracket or income at or below the current limit
stops after taxing). -/
def bracketTax (income : ℚ) : List (Option ℚ × ℚ) → ℚ → ℚ
  | [], _ => 0
  | (blimit, rate) :: rest, prev =>
    if income ≤ prev then 0
    else
      let current := blimit.getD income
      let taxable := min income current - prev
      let t := if 0 < taxable then taxable * rate else 0
      if blimit.isNone ∨ income ≤ current then t
      else t + bracketTax income rest current

/-- Age-based total rebate: primary always, secondary added for 65_to_74,
secondary and tertiary added for 75_plus. -/
def totalRebate (age_category : String) : ℚ :=
  FALLBACK_PRIMARY_REBATE +
    (if age_category = "65_to_74" then FALLBACK_SECONDARY_REBATE
     else if age_category = "75_plus" then
       FALLBACK_SECONDARY_REBATE + FALLBACK_TERTIARY_REBATE
     else 0)

/-- _get_marginal_rate: rate (as a percentage) of the first bracket whose
limit is at or above the income; the infinite bracket always matches. -/
def marginalRate (income : ℚ) : List (Option ℚ × ℚ) → ℚ
  | [] => 0
  | (blimit, rate) :: rest =>
    match blimit with
    | Option.none => rate * 100
    | some l => if income ≤ l then rate * 100 else marginalRate income rest

/-- Result record of calculate_annual_tax. -/
structure TaxResult where
  annual_income : ℚ
  tax_before_rebates : ℚ
  total_rebate : ℚ
  annual_tax : ℚ
  effective_rate : ℚ
  marginal_rate : ℚ
deriving DecidableEq

/-- _calculate_annual_tax_impl on an already validated income. -/
def calculate_annual_tax_impl (income : ℚ) (age_category : String) : TaxResult :=
  let tax_before_rebates := bracketTax income get_tax_brackets 0
  let total_rebate := totalRebate age_category
  let annual_tax := max 0 (tax_before_rebates - total_rebate)
  { annual_income := income
    tax_before_rebates := tax_before_rebates
    total_rebate := total_rebate
    annual_tax := annual_tax
    effective_rate := if 0 < income then annual_tax / income * 100 else 0
    marginal_rate := marginalRate income get_tax_brackets }

/-- calculate_annual_tax: validate the input, then run the implementation. -/
def calculate_annual_tax (v : PyVal) (age_category : String) : Except FinError TaxResult := do
  let income ← validate_financial_input v
  pure (calculate_annual_tax_impl income age_category)

/-- calculate_uif: min(monthly_gross * UIF_RATE, UIF_MONTHLY_CAP).
No input validation is performed by the source. -/
def calculate_uif (monthly_gross : ℚ) : ℚ :=
  min (monthly_gross * FALLBACK_UIF_RATE) FALLBACK_UIF_MONTHLY_CAP

/-- calculate_medical_tax_credit: tiered schedule over the number of medical
scheme members (a Python int, hence ℤ).  No input validation is performed by
the source; nonpositive member counts return 0. -/
def calculate_medical_tax_credit (members : ℤ) : ℚ :=
  if members ≤ 0 then 0
  else
    let credit := FALLBACK_MEDICAL_CREDIT_MAIN
    let credit := if 1 < members then credit + FALLBACK_MEDICAL_CREDIT_DEPENDENT else credit
    if 2 < members then credit + ((members - 2 : ℤ) : ℚ) * FALLBACK_MEDICAL_CREDIT_ADDITIONAL
    else credit

/-! ## moneyrite/utils.py : PayRateConverter

The converter performs Decimal arithmetic, so its operations are modelled
with the explicit context rounding decMul / decDiv.  WEEKS_PER_MONTH is the
Decimal quotient 52 / 12 computed under the context. -/

inductive Period where
  | monthly | annually | weekly | daily | hourly
deriving DecidableEq

def WEEKS_PER_MONTH : ℚ := decDiv 52 12
def MONTHS_PER_YEAR : ℚ := 12
def WEEKS_PER_YEAR : ℚ := 52
def DAYS_PER_WEEK : ℚ := 5

/-- to_monthly: convert any pay period to a monthly amount. -/
def to_monthly (amount : ℚ) (period : Period) (hours_per_week : ℚ := 40) : ℚ :=
  match period with
  | .monthly => amount
  | .annually => decDiv amount MONTHS_PER_YEAR
  | .weekly => decMul amount WEEKS_PER_MONTH
  | .daily => decMul (decMul amount DAYS_PER_WEEK) WEEKS_PER_MONTH
  | .hourly => decMul amount (decMul hours_per_week WEEKS_PER_MONTH)

/-- from_monthly: convert a monthly amount to the target period. -/
def from_monthly (monthly_amount : ℚ) (target_period : Period) (hours_per_week : ℚ := 40) : ℚ :=
  match target_period with
  | .monthly => monthly_amount
  | .annually => decMul monthly_amount MONTHS_PER_YEAR
  | .weekly => decDiv monthly_amount WEEKS_PER_MONTH
  | .daily => decDiv monthly_amount (decMul DAYS_PER_WEEK WEEKS_PER_MONTH)
  | .hourly => decDiv monthly_amount (decMul hours_per_week WEEKS_PER_MONTH)

/-! ## moneyrite/utils.py : calculate_net_salary -/

/-- Rounding to an integer, ties away from zero (ROUND_HALF_UP). -/
def rndHalfUp (x : ℚ) : ℤ := if 0 ≤ x then ⌊x + 1/2⌋ else -⌊-x + 1/2⌋

/-- quantize(Decimal(0.01), rounding=ROUND_HALF_UP): round to 2 decimal
places, ties away from zero.  Applied by the source only at the final
presentation step. -/
def quantize2 (q : ℚ) : ℚ := (rndHalfUp (q * 100) : ℚ) / 100

/-- The pay-rate conversion sub-dictionary of the net-salary breakdown. -/
structure Conversions where
  hourly : ℚ
  daily : ℚ
  weekly : ℚ
  monthly : ℚ
  annually : ℚ
deriving DecidableEq

/-- Result record of calculate_net_salary. -/
structure NetSalaryResult where
  gross_monthly : ℚ
  gross_annual : ℚ
  pension_monthly : ℚ
  taxable_monthly : ℚ
  taxable_annual : ℚ
  income_tax_monthly : ℚ
  uif_monthly : ℚ
  medical_credit_monthly : ℚ
  total_deductions : ℚ
  net_monthly : ℚ
  effective_tax_rate : ℚ
  marginal_tax_rate : ℚ
  conversions : Conversions
deriving DecidableEq

/-- calculate_net_salary: validate both monetary inputs, clamp the pension
percentage to [0, 27.5], compute pension pre-tax, tax the annual taxable
amount, apply UIF and the optional medical credit, and quantize every output
to 2 decimal places at the end. -/
def calculate_net_salary (gross : PyVal) (include_medical : Bool)
    (medical_members : ℤ) (pension : PyVal) (age_category : String) :
    Except FinError NetSalaryResult := do
  let gross_monthly ← validate_financial_input gross
  let pension_percentage0 ← validate_financial_input pension
  let pension_percentage := max 0 (min pension_percentage0 27.5)
  let gross_annual := gross_monthly * 12
  let pension_monthly := gross_monthly * (pension_percentage / 100)
  let taxable_annual := gross_annual - pension_monthly * 12
  let tax_calc ← calculate_annual_tax (.num taxable_annual) age_category
  let income_tax_monthly0 := tax_calc.annual_tax / 12
  let uif_monthly := calculate_uif gross_monthly
  let medical_credit_monthly :=
    if include_medical then calculate_medical_tax_credit medical_members / 12 else 0
  let income_tax_monthly :=
    if include_medical then max 0 (income_tax_monthly0 - medical_credit_monthly)
    else income_tax_monthly0
  let total_deductions := income_tax_monthly + uif_monthly + pension_monthly
  let net_monthly := gross_monthly - total_deductions
  pure
    { gross_monthly := quantize2 gross_monthly
      gross_annual := quantize2 gross_annual
      pension_monthly := quantize2 pension_monthly
      taxable_monthly := quantize2 (gross_monthly - pension_monthly)
      taxable_annual := quantize2 taxable_annual
      income_tax_monthly := quantize2 income_tax_monthly
      uif_monthly := quantize2 uif_monthly
      medical_credit_monthly := quantize2 medical_credit_monthly
      total_deductions := quantize2 total_deductions
      net_monthly := quantize2 net_monthly
      effective_tax_rate := quantize2 tax_calc.effective_rate
      marginal_tax_rate := quantize2 tax_calc.marginal_rate
      conversions :=
        { hourly := quantize2 (from_monthly gross_monthly .hourly)
          daily := quantize2 (from_monthly gross_monthly .daily)
          weekly := quantize2 (from_monthly gross_monthly .weekly)
          monthly := quantize2 gross_monthly
          annually := quantize2 (from_monthly gross_monthly .annually) } }

/-! ## moneyrite/rate_engine.py

The canonical serialization json.dumps(data, sort_keys=True,
separators=(',', ':')) is modelled by a canonical JSON value tree whose
object keys are listed in sorted order; str(Decimal) leaves are modelled by
their rational value.  hashlib.sha256 over the canonical string is modelled
by a function parameter on the tree. -/

/-- A canonical JSON value. -/
inductive JVal where
  | null : JVal
  | js (s : String) : JVal
  | jn (q : ℚ) : JVal
  | ja (l : List JVal) : JVal
  | jo (l : List (String × JVal)) : JVal

/-- Tax bracket record of the rate engine. -/
structure TaxBracket where
  min_income : ℚ
  max_income : Option ℚ
  rate : ℚ
deriving DecidableEq

/-- Tax rebate record of the rate engine. -/
structure TaxRebate where
  name : String
  amount : ℚ
  age_category : String
deriving DecidableEq

/-- Complete rate configuration for a tax year. -/
structure RateConfiguration where
  version : String
  effective_date : String
  tax_year : String
  description : String
  tax_brackets : List TaxBracket
  tax_rebates : List TaxRebate
  uif_rate : ℚ
  uif_monthly_cap : ℚ
  uif_annual_cap : ℚ
  medical_credit_main : ℚ
  medical_credit_first_dependent : ℚ
  medical_credit_additional_dependent : ℚ
  source_urls : List String
  checksum : Option String := Option.none
deriving DecidableEq

/-- TaxBracket.to_dict.  The source guards the max_income leaf with the
truthiness test `if self.max_income`, so both None and a zero Decimal
serialize to null. -/
def bracketToDict (b : TaxBracket) : JVal :=
  .jo [("max_income",
          match b.max_income with
          | Option.none => JVal.null
          | some m => if m = 0 then JVal.null else JVal.jn m),
       ("min_income", .jn b.min_income),
       ("rate", .jn b.rate)]

/-- TaxRebate.to_dict. -/
def rebateToDict (r : TaxRebate) : JVal :=
  .jo [("age_category", .js r.age_category),
       ("amount", .jn r.amount),
       ("name", .js r.name)]

/-- to_dict of the configuration with the checksum field removed, keys in
the sorted order produced by json.dumps(sort_keys=True). -/
def canonicalSerialization (cfg : RateConfiguration) : JVal :=
  .jo [("description", .js cfg.description),
       ("effective_date", .js cfg.effective_date),
       ("medical_credit_additional_dependent", .jn cfg.medical_credit_additional_dependent),
       ("medical_credit_first_dependent", .jn cfg.medical_credit_first_dependent),
       ("medical_credit_main", .jn cfg.medical_credit_main),
       ("source_urls", .ja (cfg.source_urls.map JVal.js)),
       ("tax_brackets", .ja (cfg.tax_brackets.map bracketToDict)),
       ("tax_rebates", .ja (cfg.tax_rebates.map rebateToDict)),
       ("tax_year", .js cfg.tax_year),
       ("uif_annual_cap", .jn cfg.uif_annual_cap),
       ("uif_monthly_cap", .jn cfg.uif_monthly_cap),
       ("uif_rate", .jn cfg.uif_rate),
       ("version", .js cfg.version)]

/-- calculate_checksum: the hash of the canonical serialization without the
checksum field. -/
def calculate_checksum (hash : JVal → String) (cfg : RateConfiguration) : String :=
  hash (canonicalSerialization cfg)

/-- save_configuration computes and sets the checksum before persisting; the
persisted record is the returned configuration. -/
def save_configuration (hash : JVal → String) (cfg : RateConfiguration) : RateConfiguration :=
  { cfg with checksum := some (calculate_checksum hash cfg) }

/-- verify_integrity: recompute the checksum and compare with the stored
one. -/
def verify_integrity (hash : JVal → String) (cfg : RateConfiguration) : Bool :=
  cfg.checksum = some (calculate_checksum hash cfg)

/-- The hardcoded 2025 configuration of _get_default_2025_config, before its
checksum is set. -/
def default_2025_base : RateConfiguration :=
  { version := "2025.1.0"
    effective_date := "2025-03-01"
    tax_year := "2025/2026"
    description := "SARS Tax Tables 2025/2026 - Hardcoded Fallback"
    tax_brackets :=
      [⟨0, some 237100, 0.18⟩, ⟨237100, some 370500, 0.26⟩,
       ⟨370500, some 512800, 0.31⟩, ⟨512800, some 673000, 0.36⟩,
       ⟨673000, some 857900, 0.39⟩, ⟨857900, some 1817000, 0.41⟩,
       ⟨1817000, Option.none, 0.45⟩]
    tax_rebates :=
      [⟨"Primary Rebate", 17235, "under_65"⟩,
       ⟨"Secondary Rebate", 3300, "65_to_74"⟩,
       ⟨"Tertiary Rebate", 1470, "75_plus"⟩]
    uif_rate := 0.01
    uif_monthly_cap := 177.12
    uif_annual_cap := 17712
    medical_credit_main := 364
    medical_credit_first_dependent := 364
    medical_credit_additional_dependent := 246
    source_urls :=
      ["https://www.sars.gov.za/tax-rates/income-tax/rates-of-tax-for-individuals/",
       "https://www.sars.gov.za/tax-rates/medical-tax-credit-rates/"] }

/-! ## moneyrite/resilience.py : CircuitBreaker

The cache-backed breaker state (state value, transition timestamp, failure
and success counters, with their missing-key defaults) is modelled by an
explicit record; time.time() is a rational timestamp passed into each call.
The wrapped function is represented by its outcome: true for a normal
return, false for a raised exception. -/

inductive CircuitState where
  | closed | opened | halfOpen
deriving DecidableEq

structure CircuitBreakerConfig where
  failure_threshold : ℕ := 5
  recovery_timeout : ℚ := 60
  success_threshold : ℕ := 3
deriving DecidableEq

structure CBState where
  state : CircuitState
  timestamp : ℚ
  failures : ℕ
  successes : ℕ
deriving DecidableEq

/-- The state an unused breaker reads from an empty cache: CLOSED, zero
counters, timestamp default 0. -/
def CBState.initial : CBState := ⟨.closed, 0, 0, 0⟩

/-- _handle_success. -/
def handle_success (cfg : CircuitBreakerConfig) (s : CBState) (now : ℚ) : CBState :=
  match s.state with
  | .halfOpen =>
    let successes := s.successes + 1
    if cfg.success_threshold ≤ successes then
      { state := .closed, timestamp := now, failures := 0, successes := 0 }
    else { s with successes := successes }
  | .closed => { s with failures := 0 }
  | .opened => s

/-- _handle_failure. -/
def handle_failure (cfg : CircuitBreakerConfig) (s : CBState) (now : ℚ) : CBState :=
  match s.state with
  | .halfOpen => { s with state := .opened, timestamp := now, successes := 0 }
  | .closed =>
    let failures := s.failures + 1
    if cfg.failure_threshold ≤ failures then
      { s with state := .opened, timestamp := now, failures := failures }
    else { s with failures := failures }
  | .opened => s

/-- CircuitBreaker.call at time now, where outcome is whether the wrapped
function would succeed.  Result none models CircuitBreakerOpenError raised
without invoking the function; some b models an invocation with outcome b
(a false outcome re-raises to the caller after _handle_failure). -/
def cbCall (cfg : CircuitBreakerConfig) (s : CBState) (now : ℚ) (outcome : Bool) :
    Option Bool × CBState :=
  if s.state = .opened then
    if cfg.recovery_timeout < now - s.timestamp then
      let s2 : CBState := { s with state := .halfOpen, timestamp := now, successes := 0 }
      if outcome then (some true, handle_success cfg s2 now)
      else (some false, handle_failure cfg s2 now)
    else (Option.none, s)
  else
    if outcome then (some true, handle_success cfg s now)
    else (some false, handle_failure cfg s now)

/-- Fold a sequence of timed calls through the breaker. -/
def cbRun (cfg : CircuitBreakerConfig) (s : CBState) (calls : List (ℚ × Bool)) : CBState :=
  calls.foldl (fun st c => (cbCall cfg st c.1 c.2).2) s

/-! ## moneyrite/resilience.py : RateLimiter

The per-identifier cache entry is a dictionary from integer second to
request count, modelled as an association list with distinct keys. -/

/-- Dictionary assignment on an association list: replace the value of an
existing key in place, else append the new binding. -/
def alistSet {α β : Type} [BEq α] : List (α × β) → α → β → List (α × β)
  | [], k, v => [(k, v)]
  | (k0, v0) :: rest, k, v =>
    if k0 == k then (k0, v) :: rest else (k0, v0) :: alistSet rest k v

/-- RateLimiter.is_allowed at integer time now: prune entries at or before
now - window_seconds, sum the surviving counts, reject when the total has
reached max_requests (leaving the stored dictionary untouched), otherwise
record the current second and allow. -/
def is_allowed (max_requests : ℕ) (window_seconds : ℤ)
    (store : List (ℤ × ℕ)) (now : ℤ) : Bool × List (ℤ × ℕ) :=
  let window_start := now - window_seconds
  let cleaned := store.filter (fun p => window_start < p.1)
  let total := (cleaned.map Prod.snd).sum
  if max_requests ≤ total then (false, store)
  else (true, alistSet cleaned now ((cleaned.lookup now).getD 0 + 1))

/-- Run a sequence of timed is_allowed checks, returning the results and the
final store. -/
def rlRun (max_requests : ℕ) (window_seconds : ℤ) :
    List (ℤ × ℕ) → List ℤ → List Bool × List (ℤ × ℕ)
  | s, [] => ([], s)
  | s, t :: ts =>
    let r := is_allowed max_requests window_seconds s t
    let rest := rlRun max_requests window_seconds r.2 ts
    (r.1 :: rest.1, rest.2)

/-! ## moneyrite/feature_flags.py

The flag store is an association list from flag name to flag.  The stable
hash int(md5(key)[:8], 16) is a function parameter h; the cache-backed
canary success rate (_get_canary_success_rate, defaulting to 100 with no
data) is a function parameter success_rate. -/

inductive RolloutStrategy where
  | off | on | percentage | user_list | canary | shadow
deriving DecidableEq

structure FeatureFlag where
  name : String
  description : String
  strategy : RolloutStrategy
  enabled : Bool := false
  percentage : ℚ := 0
  user_ids : List ℤ := []
  user_groups : List String := []
  canary_percentage : ℚ := 5
  canary_success_threshold : ℚ := 99
  shadow_percentage : ℚ := 10
  created_by : Option String := Option.none
  created_at : Option String := Option.none
  updated_at : Option String := Option.none
deriving DecidableEq

/-- Deterministic user bucket in 1..100: (hash mod 100) + 1. -/
def hashBucket (h : String → ℕ) (input : String) : ℕ := h input % 100 + 1

/-- _percentage_rollout. -/
def percentage_rollout (h : String → ℕ) (flag : FeatureFlag) (user : Option ℤ) : Bool :=
  match user with
  | Option.none => false
  | some uid =>
    decide ((hashBucket h (toString uid ++ ":" ++ flag.name) : ℚ) ≤ flag.percentage)

/-- _canary_rollout: canary-bucketed users see the feature only while the
recorded success rate is at or above the flag threshold. -/
def canary_rollout (h : String → ℕ) (success_rate : String → ℚ)
    (flag : FeatureFlag) (user : Option ℤ) : Bool :=
  match user with
  | Option.none => false
  | some uid =>
    if (hashBucket h (toString uid ++ ":canary:" ++ flag.name) : ℚ) ≤ flag.canary_percentage then
      decide (flag.canary_success_threshold ≤ success_rate flag.name)
    else false

/-- _evaluate_flag.  The shadow strategy tracks the user in the cache as a
side effect and always evaluates to false for live behavior. -/
def evaluate_flag (h : String → ℕ) (success_rate : String → ℚ)
    (flag : FeatureFlag) (user : Option ℤ) : Bool :=
  match flag.strategy with
  | .off => false
  | .on => true
  | .percentage => percentage_rollout h flag user
  | .user_list =>
    match user with
    | Option.none => false
    | some uid => decide (uid ∈ flag.user_ids)
  | .canary => canary_rollout h success_rate flag user
  | .shadow => false

/-- is_enabled: false for an unknown or disabled flag, else dispatch on the
strategy. -/
def is_enabled (h : String → ℕ) (success_rate : String → ℚ)
    (flags : List (String × FeatureFlag)) (flag_name : String) (user : Option ℤ) : Bool :=
  match flags.lookup flag_name with
  | Option.none => false
  | some flag => if ¬flag.enabled then false else evaluate_flag h success_rate flag user

/-- emergency_disable: false for an unknown flag; otherwise unconditionally
set enabled to false and the strategy to off (the reason is only logged). -/
def emergency_disable (flags : List (String × FeatureFlag)) (flag_name : String) :
    Bool × List (String × FeatureFlag) :=
  match flags.lookup flag_name with
  | Option.none => (false, flags)
  | some flag =>
    (true, alistSet flags flag_name { flag with enabled := false, strategy := .off })

/-- A Python value passed as a keyword argument to update_flag.  A setattr
with a value of the wrong type is representable in Python but outside this
model; such kwargs are modelled as no-ops. -/
inductive FlagValue where
  | bv (v : Bool)
  | sv (v : RolloutStrategy)
  | qv (v : ℚ)
  | idsv (v : List ℤ)
  | strv (v : String)
  | strsv (v : List String)
  | ostrv (v : Option String)

/-- The allowed_fields list of update_flag. -/
def allowed_fields : List String :=
  ["enabled", "strategy", "percentage", "user_ids", "canary_percentage"]

/-- Model of setattr(flag, field, value) for each flag field. -/
def setattrFlag (f : FeatureFlag) (field : String) (v : FlagValue) : FeatureFlag :=
  if field = "name" then (match v with | .strv x => { f with name := x } | _ => f)
  else if field = "description" then (match v with | .strv x => { f with description := x } | _ => f)
  else if field = "strategy" then (match v with | .sv x => { f with strategy := x } | _ => f)
  else if field = "enabled" then (match v with | .bv x => { f with enabled := x } | _ => f)
  else if field = "percentage" then (match v with | .qv x => { f with percentage := x } | _ => f)
  else if field = "user_ids" then (match v with | .idsv x => { f with user_ids := x } | _ => f)
  else if field = "user_groups" then (match v with | .strsv x => { f with user_groups := x } | _ => f)
  else if field = "canary_percentage" then (match v with | .qv x => { f with canary_percentage := x } | _ => f)
  else if field = "canary_success_threshold" then (match v with | .qv x => { f with canary_success_threshold := x } | _ => f)
  else if field = "shadow_percentage" then (match v with | .qv x => { f with shadow_percentage := x } | _ => f)
  else if field = "created_by" then (match v with | .ostrv x => { f with created_by := x } | _ => f)
  else if field = "created_at" then (match v with | .ostrv x => { f with created_at := x } | _ => f)
  else if field = "updated_at" then (match v with | .ostrv x => { f with updated_at := x } | _ => f)
  else f

/-- update_flag: false for an unknown flag; otherwise apply every keyword
argument whose field name is in allowed_fields, ignoring the rest. -/
def update_flag (flags : List (String × FeatureFlag)) (flag_name : String)
    (kwargs : List (String × FlagValue)) : Bool × List (String × FeatureFlag) :=
  match flags.lookup flag_name with
  | Option.none => (false, flags)
  | some flag =>
    let updated := kwargs.foldl
      (fun f kv => if kv.1 ∈ allowed_fields then setattrFlag f kv.1 kv.2 else f) flag
    (true, alistSet flags flag_name updated)

/-! ### Rate limiter trace bookkeeping

A trace history records, for each processed call, its integer second and
whether is_allowed returned true. -/

/-- Number of successful calls recorded at second t in a history. -/
def histCountAt (hist : List (ℤ × Bool)) (t : ℤ) : ℕ :=
  hist.countP (fun q => decide (q.1 = t) && q.2)

/-- Number of successful calls in a history with time in the half-open
window (lo, hi]. -/
def windowSuccesses (hist : List (ℤ × Bool)) (lo hi : ℤ) : ℕ :=
  hist.countP (fun q => decide (lo < q.1) && decide (q.1 ≤ hi) && q.2)

/-- Relation between the stored per-second dictionary and the history of
calls processed up to time tcur: keys are unique and at most tcur, and for
every second still inside a future window the stored count is exactly the
number of recorded successes at that second. -/
def rlInv (w : ℤ) (store : List (ℤ × ℕ)) (hist : List (ℤ × Bool)) (tcur : ℤ) : Prop :=
  (store.map Prod.fst).Nodup ∧
  (∀ p ∈ store, p.1 ≤ tcur) ∧
  (∀ q ∈ hist, q.1 ≤ tcur) ∧
  (∀ t : ℤ, tcur - w < t → ((store.lookup t).getD 0 = histCountAt hist t))

/-! ## Concrete instances used in the development -/

/-- A concrete hash function on serialization trees. -/
def constHash : JVal → String := fun _ => "d41d8cd9"

/-- The default 2025 configuration as persisted by save_configuration. -/
def saved_2025 : RateConfiguration := save_configuration constHash default_2025_base

/-- saved_2025 with a single field mutated after the checksum was set: the
top bracket's max_income is changed from None to the different value
Decimal(0). -/
def mutated_2025 : RateConfiguration :=
  { saved_2025 with tax_brackets :=
      [⟨0, some 237100, 0.18⟩, ⟨237100, some 370500, 0.26⟩,
       ⟨370500, some 512800, 0.31⟩, ⟨512800, some 673000, 0.36⟩,
       ⟨673000, some 857900, 0.39⟩, ⟨857900, some 1817000, 0.41⟩,
       ⟨1817000, some 0, 0.45⟩] }

/-- A hash function on serialization trees that reads the description field;
it separates trees with different description leaves. -/
def descHash : JVal → String := fun j =>
  match j with
  | .jo l =>
    match l.lookup "description" with
    | some (.js d) => d
    | _ => ""
  | _ => ""

/-- A concrete flag store with one canary flag, mid-canary and enabled. -/
def flags0 : List (String × FeatureFlag) :=
  [("new_tax_engine",
    { name := "new_tax_engine"
      description := "Use new versioned tax calculation engine"
      strategy := .canary
      enabled := true
      canary_percentage := 5 })]

/-- A concrete stable-hash model. -/
def zeroHash : String → ℕ := fun _ => 0

/-- A concrete canary success-rate store reporting 100 percent. -/
def fullRate : String → ℚ := fun _ => 100

/-! ## Helper lemmas -/

theorem alistSet_lookup_self {α β : Type} [BEq α] [LawfulBEq α]
    (l : List (α × β)) (k : α) (v : β) : (alistSet l k v).lookup k = some v := by
  induction l with
  | nil => simp [alistSet, List.lookup]
  | cons hd tl ih =>
    obtain ⟨k0, v0⟩ := hd
    by_cases hk : k0 == k
    · simp only [alistSet, hk, if_true, List.lookup]
      have : k == k0 := by
        have := eq_of_beq hk
        simp [this]
      simp [this]
    · simp only [alistSet, hk, Bool.false_eq_true, if_false, List.lookup]
      have : (k == k0) = false := by
        refine beq_eq_false_iff_ne.mpr fun hkk => ?_
        exact absurd (by simp [hkk]) hk
      simp [this, ih]

theorem alistSet_lookup_ne {α β : Type} [BEq α] [LawfulBEq α]
    (l : List (α × β)) (k : α) (v : β) (k2 : α) (h : k2 ≠ k) :
    (alistSet l k v).lookup k2 = l.lookup k2 := by
  have hne : (k2 == k) = false := beq_eq_false_iff_ne.mpr h
  induction l with
  | nil => simp [alistSet, List.lookup, hne]
  | cons hd tl ih =>
    obtain ⟨k0, v0⟩ := hd
    by_cases hk : k0 == k
    · have hk0 : k0 = k := eq_of_beq hk
      simp only [alistSet, hk, if_true, List.lookup]
      have : (k2 == k0) = false := by rw [hk0]; exact hne
      simp [this]
    · simp only [alistSet, hk, Bool.false_eq_true, if_false, List.lookup]
      by_cases h2 : k2 == k0
      · simp [h2]
      · simp only [Bool.not_eq_true] at h2
        simp [h2, ih]

/-- Evaluation principle for the context rounding: if e locates the leading
digit of q and m is the correctly rounded scaled value, then decRound q is
m scaled back. -/
theorem decRound_eq_of {q r : ℚ} {e : ℤ} (hq : q ≠ 0)
    (h1 : (10:ℚ) ^ e ≤ |q|) (h2 : |q| < (10:ℚ) ^ (e + 1))
    (hm : (rndHalfEven (q * (10:ℚ) ^ (27 - e)) : ℚ) = r * (10:ℚ) ^ (27 - e)) :
    decRound q = r := by
  have hpos : (0:ℚ) < |q| := abs_pos.mpr hq
  have hb : (1:ℕ) < 10 := by norm_num
  have hle : e ≤ Int.log 10 |q| := (Int.zpow_le_iff_le_log hb hpos).mp (by exact_mod_cast h1)
  have hlt : Int.log 10 |q| < e + 1 := (Int.lt_zpow_iff_log_lt hb hpos).mp (by exact_mod_cast h2)
  have hlog : Int.log 10 |q| = e := by omega
  have hs : (10:ℚ) ^ ((27:ℤ) - e) ≠ 0 := zpow_ne_zero _ (by norm_num)
  unfold decRound
  rw [if_neg hq]
  simp only [hlog]
  rw [hm]
  field_simp

theorem weeks_per_month_val :
    WEEKS_PER_MONTH = 4333333333333333333333333333/1000000000000000000000000000 := by
  unfold WEEKS_PER_MONTH decDiv
  apply decRound_eq_of (e := 0) (by norm_num)
  · rw [abs_of_pos] <;> norm_num
  · rw [abs_of_pos] <;> norm_num
  · unfold rndHalfEven; norm_num

theorem decMul_3_5 : decMul 3 DAYS_PER_WEEK = 15 := by
  unfold decMul DAYS_PER_WEEK
  apply decRound_eq_of (e := 1) (by norm_num)
  · rw [abs_of_pos] <;> norm_num
  · rw [abs_of_pos] <;> norm_num
  · unfold rndHalfEven; norm_num

theorem decMul_15_W : decMul 15 WEEKS_PER_MONTH = 65 := by
  rw [weeks_per_month_val]
  unfold decMul
  apply decRound_eq_of (e := 1) (by norm_num)
  · rw [abs_of_pos] <;> norm_num
  · rw [abs_of_pos] <;> norm_num
  · unfold rndHalfEven; norm_num

theorem decMul_5_W :
    decMul DAYS_PER_WEEK WEEKS_PER_MONTH = 1083333333333333333333333333/50000000000000000000000000 := by
  rw [weeks_per_month_val]
  unfold decMul DAYS_PER_WEEK
  apply decRound_eq_of (e := 1) (by norm_num)
  · rw [abs_of_pos] <;> norm_num
  · rw [abs_of_pos] <;> norm_num
  · unfold rndHalfEven; norm_num

theorem decDiv_65_back :
    decDiv 65 (1083333333333333333333333333/50000000000000000000000000)
      = 3000000000000000000000000001/1000000000000000000000000000 := by
  unfold decDiv
  apply decRound_eq_of (e := 0) (by norm_num)
  · rw [abs_of_pos] <;> norm_num
  · rw [abs_of_pos] <;> norm_num
  · unfold rndHalfEven; norm_num

theorem decMul_big_W :
    decMul (55438364588/100) WEEKS_PER_MONTH
      = 1201164566073333333333333333/500000000000000000 := by
  rw [weeks_per_month_val]
  unfold decMul
  apply decRound_eq_of (e := 9) (by norm_num)
  · rw [abs_of_pos] <;> norm_num
  · rw [abs_of_pos] <;> norm_num
  · unfold rndHalfEven; norm_num

theorem decDiv_big_back :
    decDiv (1201164566073333333333333333/500000000000000000) WEEKS_PER_MONTH
      = 5543836458799999999999999999/10000000000000000000 := by
  rw [weeks_per_month_val]
  unfold decDiv
  apply decRound_eq_of (e := 8) (by norm_num)
  · rw [abs_of_pos] <;> norm_num
  · rw [abs_of_pos] <;> norm_num
  · unfold rndHalfEven; norm_num

theorem decMul_7_W :
    decMul 7 WEEKS_PER_MONTH = 3033333333333333333333333333/100000000000000000000000000 := by
  rw [weeks_per_month_val]
  unfold decMul
  apply decRound_eq_of (e := 1) (by norm_num)
  · rw [abs_of_pos] <;> norm_num
  · rw [abs_of_pos] <;> norm_num
  · unfold rndHalfEven; norm_num

theorem decDiv_7_back :
    decDiv (3033333333333333333333333333/100000000000000000000000000) WEEKS_PER_MONTH = 7 := by
  rw [weeks_per_month_val]
  unfold decDiv
  apply decRound_eq_of (e := 0) (by norm_num)
  · rw [abs_of_pos] <;> norm_num
  · rw [abs_of_pos] <;> norm_num
  · unfold rndHalfEven; norm_num

theorem decMul_neg5_W :
    decMul (-5) WEEKS_PER_MONTH = -(1083333333333333333333333333/50000000000000000000000000) := by
  rw [weeks_per_month_val]
  unfold decMul
  apply decRound_eq_of (e := 1) (by norm_num)
  · rw [abs_of_neg] <;> norm_num
  · rw [abs_of_neg] <;> norm_num
  · unfold rndHalfEven; norm_num

/-! ## Claim C9 -/

/-- C9: calculate_uif returns min(monthlyGross * uifRate, uifMonthlyCap);
at monthlyGross = 50000 with rate 0.01 and cap 177.12 it returns 177.12,
not 500. -/
theorem C9_uif_is_capped_min :
    (∀ g : ℚ, calculate_uif g = min (g * 0.01) 177.12) ∧
    calculate_uif 50000 = 177.12 ∧ calculate_uif 50000 ≠ 500 := by
  have hval : calculate_uif 50000 = 177.12 := by
    unfold calculate_uif FALLBACK_UIF_RATE FALLBACK_UIF_MONTHLY_CAP
    rw [min_eq_right (by norm_num)]
  exact ⟨fun g => rfl, hval, by rw [hval]; norm_num⟩

/-! ## Claim C4 -/

/-- C4: calculate_annual_tax applies the base rebate always, adds the
secondary rebate for 65_to_74, adds secondary and tertiary for 75_plus, and
returns annual_tax = max(0, tax_before_rebates - total_rebate), which is
never negative. -/
theorem C4_rebates_and_nonneg_tax (income : ℚ) (age_category : String)
    (h : 0 ≤ income) :
    (calculate_annual_tax_impl income "under_65").total_rebate = 17235 ∧
    (calculate_annual_tax_impl income "65_to_74").total_rebate = 17235 + 3300 ∧
    (calculate_annual_tax_impl income "75_plus").total_rebate = 17235 + 3300 + 1470 ∧
    FALLBACK_PRIMARY_REBATE ≤ (calculate_annual_tax_impl income age_category).total_rebate ∧
    (calculate_annual_tax_impl income age_category).annual_tax =
      max 0 ((calculate_annual_tax_impl income age_category).tax_before_rebates -
        (calculate_annual_tax_impl income age_category).total_rebate) ∧
    0 ≤ (calculate_annual_tax_impl income age_category).annual_tax := by
  refine ⟨?_, ?_, ?_, ?_, rfl, le_max_left _ _⟩
  · simp [calculate_annual_tax_impl, totalRebate, FALLBACK_PRIMARY_REBATE]
  · simp [calculate_annual_tax_impl, totalRebate, FALLBACK_PRIMARY_REBATE,
      FALLBACK_SECONDARY_REBATE]
  · simp [calculate_annual_tax_impl, totalRebate, FALLBACK_PRIMARY_REBATE,
      FALLBACK_SECONDARY_REBATE, FALLBACK_TERTIARY_REBATE]
    ring
  · simp only [calculate_annual_tax_impl, totalRebate]
    have : (0:ℚ) ≤ (if age_category = "65_to_74" then FALLBACK_SECONDARY_REBATE
        else if age_category = "75_plus" then
          FALLBACK_SECONDARY_REBATE + FALLBACK_TERTIARY_REBATE
        else 0) := by
      split
      · norm_num [FALLBACK_SECONDARY_REBATE]
      · split
        · norm_num [FALLBACK_SECONDARY_REBATE, FALLBACK_TERTIARY_REBATE]
        · exact le_rfl
    linarith

/-- Witness for C4 at income 100000. -/
theorem C4_rebates_and_nonneg_tax_witness :
    (0:ℚ) ≤ 100000 ∧
    ((calculate_annual_tax_impl 100000 "under_65").total_rebate = 17235 ∧
     (calculate_annual_tax_impl 100000 "65_to_74").total_rebate = 17235 + 3300 ∧
     (calculate_annual_tax_impl 100000 "75_plus").total_rebate = 17235 + 3300 + 1470 ∧
     FALLBACK_PRIMARY_REBATE ≤ (calculate_annual_tax_impl 100000 "under_65").total_rebate ∧
     (calculate_annual_tax_impl 100000 "under_65").annual_tax =
       max 0 ((calculate_annual_tax_impl 100000 "under_65").tax_before_rebates -
         (calculate_annual_tax_impl 100000 "under_65").total_rebate) ∧
     0 ≤ (calculate_annual_tax_impl 100000 "under_65").annual_tax) :=
  ⟨by norm_num, C4_rebates_and_nonneg_tax 100000 "under_65" (by norm_num)⟩

/-! ## Claim C5 -/

/-- C5 counterexample: the weeks-per-month factor is not the exact rational
52/12 (it is the 28-significant-digit context rounding of it), and the
daily round trip through monthly of the amount 3 does not return 3. -/
theorem C5_counterexample :
    WEEKS_PER_MONTH ≠ 52/12 ∧
    from_monthly (to_monthly 3 Period.daily 40) Period.daily 40 ≠ 3 := by
  constructor
  · rw [weeks_per_month_val]; norm_num
  · show from_monthly (decMul (decMul 3 DAYS_PER_WEEK) WEEKS_PER_MONTH) Period.daily 40 ≠ 3
    rw [decMul_3_5, decMul_15_W]
    show decDiv 65 (decMul DAYS_PER_WEEK WEEKS_PER_MONTH) ≠ 3
    rw [decMul_5_W, decDiv_65_back]
    norm_num

/-- C5 (amended): pay-period conversion normalizes through a monthly amount
using the weeks-per-month factor Decimal(52)/Decimal(12), which is the
28-significant-digit half-even rounding 4.333333333333333333333333333 of
52/12 rather than the exact rational; round trips through monthly agree to
28 significant digits but are not always exact (3 daily round-trips to
3.000000000000000000000000001 and 554383645.88 weekly round-trips to
554383645.8799999999999999999, while 7 weekly round-trips exactly). -/
theorem C5_weeks_per_month_amended :
    WEEKS_PER_MONTH = 4333333333333333333333333333/1000000000000000000000000000 ∧
    (∀ a : ℚ, to_monthly a Period.weekly 40 = decMul a WEEKS_PER_MONTH ∧
      from_monthly a Period.weekly 40 = decDiv a WEEKS_PER_MONTH) ∧
    from_monthly (to_monthly 3 Period.daily 40) Period.daily 40
      = 3000000000000000000000000001/1000000000000000000000000000 ∧
    from_monthly (to_monthly (55438364588/100) Period.weekly 40) Period.weekly 40
      = 5543836458799999999999999999/10000000000000000000 ∧
    from_monthly (to_monthly 7 Period.weekly 40) Period.weekly 40 = 7 := by
  refine ⟨weeks_per_month_val, fun a => ⟨rfl, rfl⟩, ?_, ?_, ?_⟩
  · show decDiv (decMul (decMul 3 DAYS_PER_WEEK) WEEKS_PER_MONTH)
      (decMul DAYS_PER_WEEK WEEKS_PER_MONTH) = _
    rw [decMul_3_5, decMul_15_W, decMul_5_W, decDiv_65_back]
  · show decDiv (decMul (55438364588/100) WEEKS_PER_MONTH) WEEKS_PER_MONTH = _
    rw [decMul_big_W, decDiv_big_back]
  · show decDiv (decMul 7 WEEKS_PER_MONTH) WEEKS_PER_MONTH = 7
    rw [decMul_7_W, decDiv_7_back]

/-! ## Claim C1 -/

/-- C1 counterexample: calculate_uif accepts a negative monthly gross and
performs arithmetic on it, returning -1 for input -100 instead of raising;
calculate_medical_tax_credit silently returns 0 for a negative member
count; to_monthly converts a negative weekly amount. -/
theorem C1_counterexample :
    calculate_uif (-100) = -1 ∧
    calculate_medical_tax_credit (-3) = 0 ∧
    to_monthly (-5) Period.weekly 40
      = -(1083333333333333333333333333/50000000000000000000000000) := by
  refine ⟨?_, ?_, ?_⟩
  · unfold calculate_uif FALLBACK_UIF_RATE FALLBACK_UIF_MONTHLY_CAP
    rw [min_eq_left (by norm_num)]
    norm_num
  · simp [calculate_medical_tax_credit]
  · show decMul (-5) WEEKS_PER_MONTH = _
    exact decMul_neg5_W

/-- C1 (amended): validate_financial_input rejects None with TypeError and
empty strings, non-numeric strings and negative amounts with ValueError,
and this validation guards calculate_annual_tax and calculate_net_salary
(both arguments); calculate_uif, calculate_medical_tax_credit and the
pay-period converters perform no input validation: negative amounts flow
into arithmetic and produce numeric results. -/
theorem C1_validation_amended :
    (∀ age, calculate_annual_tax PyVal.none age = .error .typeError) ∧
    (∀ s age, stripWS s = [] → calculate_annual_tax (.str s) age = .error .valueError) ∧
    (∀ s age, parseDecimal s = Option.none →
      calculate_annual_tax (.str s) age = .error .valueError) ∧
    (∀ q age, q < 0 → calculate_annual_tax (.num q) age = .error .valueError) ∧
    (∀ im mm p age, calculate_net_salary PyVal.none im mm p age = .error .typeError) ∧
    (∀ q im mm p age, q < 0 →
      calculate_net_salary (.num q) im mm p age = .error .valueError) ∧
    (∀ q im mm p age, 0 ≤ q → p < 0 →
      calculate_net_salary (.num q) im mm (.num p) age = .error .valueError) ∧
    calculate_uif (-100) = -1 ∧
    calculate_medical_tax_credit (-3) = 0 := by
  refine ⟨fun age => rfl, ?_, ?_, ?_, fun im mm p age => rfl, ?_, ?_, ?_, ?_⟩
  · intro s age h
    simp [calculate_annual_tax, validate_financial_input, h, Bind.bind, Except.bind]
  · intro s age h
    by_cases hs : stripWS s = []
    · simp [calculate_annual_tax, validate_financial_input, hs, Bind.bind, Except.bind]
    · simp [calculate_annual_tax, validate_financial_input, hs, h, Bind.bind, Except.bind]
  · intro q age h
    simp [calculate_annual_tax, validate_financial_input, h, not_le.mpr h, Bind.bind,
      Except.bind]
  · intro q im mm p age h
    simp [calculate_net_salary, validate_financial_input, not_le.mpr h, h, Bind.bind,
      Except.bind]
  · intro q im mm p age hq hp
    simp [calculate_net_salary, validate_financial_input, not_le.mpr hp, hp,
      not_lt.mpr hq, Bind.bind, Except.bind]
  · unfold calculate_uif FALLBACK_UIF_RATE FALLBACK_UIF_MONTHLY_CAP
    rw [min_eq_left (by norm_num)]
    norm_num
  · simp [calculate_medical_tax_credit]

/-- Witness for C1 (amended) at concrete inputs. -/
theorem C1_validation_amended_witness :
    calculate_annual_tax PyVal.none "under_65" = .error .typeError ∧
    calculate_annual_tax (.str "  ") "under_65" = .error .valueError ∧
    calculate_annual_tax (.str "12a") "under_65" = .error .valueError ∧
    calculate_annual_tax (.num (-7)) "under_65" = .error .valueError ∧
    calculate_net_salary (.num (-7)) false 1 (.num 0) "under_65" = .error .valueError ∧
    calculate_net_salary (.num 30000) false 1 (.num (-2)) "under_65" = .error .valueError := by
  obtain ⟨h1, h2, h3, h4, -, h6, h7, -, -⟩ := C1_validation_amended
  refine ⟨h1 "under_65", h2 "  " "under_65" (by decide), h3 "12a" "under_65" ?_,
    h4 (-7) "under_65" (by norm_num), h6 (-7) false 1 (.num 0) "under_65" (by norm_num),
    h7 30000 false 1 (-2) "under_65" (by norm_num) (by norm_num)⟩
  decide

/-! ## Claim C2 -/

/-- C2 counterexample: the saved default 2025 configuration with the top
bracket's max_income mutated from None to the different value 0 has a
different tax_brackets field but the same canonical serialization, so
verify_integrity still returns true regardless of the hash function. -/
theorem C2_counterexample :
    mutated_2025.tax_brackets ≠ saved_2025.tax_brackets ∧
    mutated_2025.checksum = saved_2025.checksum ∧
    canonicalSerialization mutated_2025 = canonicalSerialization saved_2025 ∧
    verify_integrity constHash mutated_2025 = true := by
  refine ⟨?_, rfl, ?_, ?_⟩
  · intro hEq
    have := congrArg (fun l => (l.map TaxBracket.max_income).getLast?) hEq
    simp [mutated_2025, saved_2025, save_configuration, default_2025_base] at this
  · show canonicalSerialization mutated_2025 = canonicalSerialization saved_2025
    unfold canonicalSerialization mutated_2025 saved_2025 save_configuration
      default_2025_base bracketToDict
    norm_num
  · rfl

/-- Detection under an injective hash: a stored checksum computed for one
serialization never verifies against a configuration with a different
serialization. -/
theorem verify_integrity_detects_of_injective (hash : JVal → String)
    (hinj : Function.Injective hash) (cfg cfg2 : RateConfiguration)
    (hc : cfg2.checksum = (save_configuration hash cfg).checksum)
    (hne : canonicalSerialization cfg2 ≠ canonicalSerialization cfg) :
    verify_integrity hash cfg2 = false := by
  unfold verify_integrity
  rw [hc]
  unfold save_configuration calculate_checksum
  simp only [decide_eq_false_iff_not]
  intro hEq
  rw [Option.some_inj] at hEq
  exact hne (hinj hEq.symm)

/-- C2 (amended): verify_integrity is true immediately after
save_configuration; a post-hoc single-field mutation is detected exactly
when it changes the recomputed checksum, and every mutation of the version
or uif_rate field to a different value changes the canonical serialization;
mutating a bracket max_income between None and a zero Decimal does not
change the serialization (see the counterexample) and so goes undetected. -/
theorem C2_checksum_roundtrip_amended :
    (∀ (hash : JVal → String) (cfg : RateConfiguration),
      verify_integrity hash (save_configuration hash cfg) = true) ∧
    (∀ (hash : JVal → String) (cfg cfg2 : RateConfiguration),
      cfg2.checksum = (save_configuration hash cfg).checksum →
      hash (canonicalSerialization cfg2) ≠ hash (canonicalSerialization cfg) →
      verify_integrity hash cfg2 = false) ∧
    (∀ (cfg : RateConfiguration) (v2 : String), v2 ≠ cfg.version →
      canonicalSerialization { cfg with version := v2 } ≠ canonicalSerialization cfg) ∧
    (∀ (cfg : RateConfiguration) (u2 : ℚ), u2 ≠ cfg.uif_rate →
      canonicalSerialization { cfg with uif_rate := u2 } ≠ canonicalSerialization cfg) := by
  refine ⟨?_, ?_, ?_, ?_⟩
  · intro hash cfg
    unfold verify_integrity save_configuration calculate_checksum
    simp only [decide_eq_true_eq]
    rfl
  · intro hash cfg cfg2 hc hne
    unfold verify_integrity
    rw [hc]
    unfold save_configuration calculate_checksum
    simp only [decide_eq_false_iff_not]
    intro hEq
    rw [Option.some_inj] at hEq
    exact hne hEq.symm
  · intro cfg v2 hv hEq
    unfold canonicalSerialization at hEq
    simp at hEq
    exact hv hEq
  · intro cfg u2 hu hEq
    unfold canonicalSerialization at hEq
    simp at hEq
    exact hu hEq

/-- Witness for C2 (amended) at concrete configurations and hashes. -/
theorem C2_checksum_roundtrip_amended_witness :
    verify_integrity constHash saved_2025 = true ∧
    verify_integrity descHash
      { save_configuration descHash default_2025_base with description := "tampered" } = false ∧
    canonicalSerialization { default_2025_base with version := "2026.0.0" }
      ≠ canonicalSerialization default_2025_base ∧
    canonicalSerialization { default_2025_base with uif_rate := 0.02 }
      ≠ canonicalSerialization default_2025_base := by
  obtain ⟨h1, h2, h3, h4⟩ := C2_checksum_roundtrip_amended
  refine ⟨h1 constHash default_2025_base, ?_, h3 default_2025_base "2026.0.0" (by decide),
    h4 default_2025_base 0.02 (by norm_num [default_2025_base])⟩
  refine h2 descHash default_2025_base _ rfl ?_
  show descHash (canonicalSerialization _) ≠ descHash (canonicalSerialization _)
  simp [descHash, canonicalSerialization, default_2025_base, save_configuration,
    List.lookup]

/-! ## Claim C8 -/

/-- C8: emergency_disable on a known flag unconditionally sets enabled to
false and the strategy to off, regardless of prior strategy or canary
success rate, and afterwards is_enabled returns false for every user. -/
theorem C8_emergency_disable_overrides (h : String → ℕ) (success_rate : String → ℚ)
    (flags : List (String × FeatureFlag)) (flag_name : String) (flag : FeatureFlag)
    (hfind : flags.lookup flag_name = some flag) :
    (emergency_disable flags flag_name).1 = true ∧
    (emergency_disable flags flag_name).2.lookup flag_name =
      some { flag with enabled := false, strategy := .off } ∧
    ∀ user : Option ℤ,
      is_enabled h success_rate (emergency_disable flags flag_name).2 flag_name user = false := by
  unfold emergency_disable
  rw [hfind]
  refine ⟨rfl, alistSet_lookup_self _ _ _, ?_⟩
  intro user
  unfold is_enabled
  rw [alistSet_lookup_self]
  simp

/-- Witness for C8 on a concrete store holding an enabled mid-canary flag
with a success rate above threshold. -/
theorem C8_emergency_disable_overrides_witness :
    (emergency_disable flags0 "new_tax_engine").1 = true ∧
    (emergency_disable flags0 "new_tax_engine").2.lookup "new_tax_engine" =
      some { name := "new_tax_engine"
             description := "Use new versioned tax calculation engine"
             strategy := .off
             enabled := false
             canary_percentage := 5 } ∧
    is_enabled zeroHash fullRate (emergency_disable flags0 "new_tax_engine").2
      "new_tax_engine" (some 7) = false := by
  obtain ⟨h1, h2, h3⟩ :=
    C8_emergency_disable_overrides zeroHash fullRate flags0 "new_tax_engine" _ rfl
  exact ⟨h1, h2, h3 (some 7)⟩

/-! ## Claim C10 -/

/-- One update step of update_flag leaves the fields outside allowed_fields
unchanged. -/
theorem update_step_frame (f : FeatureFlag) (k : String) (v : FlagValue) :
    ((if k ∈ allowed_fields then setattrFlag f k v else f).name = f.name) ∧
    ((if k ∈ allowed_fields then setattrFlag f k v else f).description = f.description) ∧
    ((if k ∈ allowed_fields then setattrFlag f k v else f).canary_success_threshold
      = f.canary_success_threshold) ∧
    ((if k ∈ allowed_fields then setattrFlag f k v else f).shadow_percentage
      = f.shadow_percentage) ∧
    ((if k ∈ allowed_fields then setattrFlag f k v else f).user_groups = f.user_groups) ∧
    ((if k ∈ allowed_fields then setattrFlag f k v else f).created_by = f.created_by) ∧
    ((if k ∈ allowed_fields then setattrFlag f k v else f).created_at = f.created_at) ∧
    ((if k ∈ allowed_fields then setattrFlag f k v else f).updated_at = f.updated_at) := by
  by_cases hk : k ∈ allowed_fields
  · simp only [hk, if_true]
    have hcases : k = "enabled" ∨ k = "strategy" ∨ k = "percentage" ∨
        k = "user_ids" ∨ k = "canary_percentage" := by simpa [allowed_fields] using hk
    rcases hcases with rfl | rfl | rfl | rfl | rfl <;> cases v <;> simp [setattrFlag]
  · simp [hk]

/-- The fold of update steps over the keyword arguments preserves the fields
outside allowed_fields. -/
theorem update_fold_frame (kwargs : List (String × FlagValue)) (f : FeatureFlag) :
    ((kwargs.foldl
      (fun g kv => if kv.1 ∈ allowed_fields then setattrFlag g kv.1 kv.2 else g) f).name
        = f.name) ∧
    ((kwargs.foldl
      (fun g kv => if kv.1 ∈ allowed_fields then setattrFlag g kv.1 kv.2 else g) f).description
        = f.description) ∧
    ((kwargs.foldl
      (fun g kv => if kv.1 ∈ allowed_fields then setattrFlag g kv.1 kv.2 else g)
        f).canary_success_threshold = f.canary_success_threshold) ∧
    ((kwargs.foldl
      (fun g kv => if kv.1 ∈ allowed_fields then setattrFlag g kv.1 kv.2 else g)
        f).shadow_percentage = f.shadow_percentage) ∧
    ((kwargs.foldl
      (fun g kv => if kv.1 ∈ allowed_fields then setattrFlag g kv.1 kv.2 else g)
        f).user_groups = f.user_groups) ∧
    ((kwargs.foldl
      (fun g kv => if kv.1 ∈ allowed_fields then setattrFlag g kv.1 kv.2 else g)
        f).created_by = f.created_by) ∧
    ((kwargs.foldl
      (fun g kv => if kv.1 ∈ allowed_fields then setattrFlag g kv.1 kv.2 else g)
        f).created_at = f.created_at) ∧
    ((kwargs.foldl
      (fun g kv => if kv.1 ∈ allowed_fields then setattrFlag g kv.1 kv.2 else g)
        f).updated_at = f.updated_at) := by
  induction kwargs generalizing f with
  | nil => exact ⟨rfl, rfl, rfl, rfl, rfl, rfl, rfl, rfl⟩
  | cons kv rest ih =>
    obtain ⟨s1, s2, s3, s4, s5, s6, s7, s8⟩ := update_step_frame f kv.1 kv.2
    obtain ⟨i1, i2, i3, i4, i5, i6, i7, i8⟩ :=
      ih (if kv.1 ∈ allowed_fields then setattrFlag f kv.1 kv.2 else f)
    exact ⟨i1.trans s1, i2.trans s2, i3.trans s3, i4.trans s4, i5.trans s5,
      i6.trans s6, i7.trans s7, i8.trans s8⟩

/-- C10: update_flag mutates only enabled, strategy, percentage, user_ids
and canary_percentage; name, description, canary_success_threshold,
shadow_percentage, user_groups, created_by, created_at and updated_at stay
unchanged even when passed as keyword arguments, other flags are untouched,
and an unknown flag name returns false without changing any flag. -/
theorem C10_update_flag_frame (flags : List (String × FeatureFlag))
    (flag_name : String) (kwargs : List (String × FlagValue)) :
    (flags.lookup flag_name = Option.none →
      update_flag flags flag_name kwargs = (false, flags)) ∧
    (∀ flag, flags.lookup flag_name = some flag →
      (update_flag flags flag_name kwargs).1 = true ∧
      ∃ updated : FeatureFlag,
        (update_flag flags flag_name kwargs).2.lookup flag_name = some updated ∧
        updated.name = flag.name ∧
        updated.description = flag.description ∧
        updated.canary_success_threshold = flag.canary_success_threshold ∧
        updated.shadow_percentage = flag.shadow_percentage ∧
        updated.user_groups = flag.user_groups ∧
        updated.created_by = flag.created_by ∧
        updated.created_at = flag.created_at ∧
        updated.updated_at = flag.updated_at) ∧
    (∀ other : String, other ≠ flag_name →
      (update_flag flags flag_name kwargs).2.lookup other = flags.lookup other) := by
  refine ⟨?_, ?_, ?_⟩
  · intro hnone
    unfold update_flag
    rw [hnone]
  · intro flag hfind
    unfold update_flag
    rw [hfind]
    refine ⟨rfl, _, alistSet_lookup_self _ _ _, ?_⟩
    exact update_fold_frame kwargs flag
  · intro other hother
    unfold update_flag
    cases hfind : flags.lookup flag_name with
    | none => rfl
    | some flag => exact alistSet_lookup_ne _ _ _ _ hother

/-- Witness for C10 on the concrete store: an update that passes both
allowed and disallowed keyword arguments, and an unknown flag name. -/
theorem C10_update_flag_frame_witness :
    update_flag flags0 "missing_flag" [("enabled", .bv false)] = (false, flags0) ∧
    (update_flag flags0 "new_tax_engine"
      [("enabled", .bv false), ("description", .strv "overwritten"),
       ("shadow_percentage", .qv 55)]).1 = true ∧
    ∃ updated : FeatureFlag,
      (update_flag flags0 "new_tax_engine"
        [("enabled", .bv false), ("description", .strv "overwritten"),
         ("shadow_percentage", .qv 55)]).2.lookup "new_tax_engine" = some updated ∧
      updated.description = "Use new versioned tax calculation engine" ∧
      updated.shadow_percentage = 10 := by
  obtain ⟨h1, -, -⟩ := C10_update_flag_frame flags0 "missing_flag" [("enabled", .bv false)]
  obtain ⟨-, h2, -⟩ := C10_update_flag_frame flags0 "new_tax_engine"
    [("enabled", .bv false), ("description", .strv "overwritten"),
     ("shadow_percentage", .qv 55)]
  obtain ⟨hb, updated, hlook, -, hdesc, -, hshadow, -⟩ := h2 _ rfl
  exact ⟨h1 rfl, hb, updated, hlook, hdesc, hshadow⟩

/-! ## Claim C3 -/

/-- The bracket walk is nonnegative when all rates are nonnegative. -/
theorem bracketTax_nonneg (income : ℚ) :
    ∀ (bs : List (Option ℚ × ℚ)) (prev : ℚ), (∀ p ∈ bs, 0 ≤ p.2) →
      0 ≤ bracketTax income bs prev := by
  intro bs
  induction bs with
  | nil => intro prev _; simp [bracketTax]
  | cons hd tl ih =>
    intro prev hr
    obtain ⟨blimit, rate⟩ := hd
    have hrate : (0:ℚ) ≤ rate := hr (blimit, rate) (List.mem_cons_self _ _)
    have hrtl : ∀ p ∈ tl, (0:ℚ) ≤ p.2 := fun p hp => hr p (List.mem_cons_of_mem _ hp)
    simp only [bracketTax]
    split_ifs with h1 h2 h3 h4
    · exact le_rfl
    · exact mul_nonneg h3.le hrate
    · exact le_rfl
    · exact add_nonneg (mul_nonneg h4.le hrate) (ih _ hrtl)
    · exact add_nonneg le_rfl (ih _ hrtl)

/-- The bracket walk is monotone in income when all rates are
nonnegative. -/
theorem bracketTax_mono {i1 i2 : ℚ} (h : i1 ≤ i2) :
    ∀ (bs : List (Option ℚ × ℚ)) (prev : ℚ), (∀ p ∈ bs, 0 ≤ p.2) →
      bracketTax i1 bs prev ≤ bracketTax i2 bs prev := by
  intro bs
  induction bs with
  | nil => intro prev _; simp [bracketTax]
  | cons hd tl ih =>
    intro prev hr
    obtain ⟨blimit, rate⟩ := hd
    have hrate : (0:ℚ) ≤ rate := hr (blimit, rate) (List.mem_cons_self _ _)
    have hrtl : ∀ p ∈ tl, (0:ℚ) ≤ p.2 := fun p hp => hr p (List.mem_cons_of_mem _ hp)
    by_cases h1 : i1 ≤ prev
    · rw [show bracketTax i1 ((blimit, rate) :: tl) prev = 0 from by simp [bracketTax, h1]]
      exact bracketTax_nonneg i2 _ _ hr
    · have h2 : ¬ i2 ≤ prev := fun hle => h1 (le_trans h hle)
      have hp1 : 0 < i1 - prev := by have := not_le.mp h1; linarith
      have hp2 : 0 < i2 - prev := by have := not_le.mp h2; linarith
      cases blimit with
      | none =>
        simp only [bracketTax, h1, h2, if_false, Option.getD_none, Option.isNone_none,
          true_or, if_true, min_self]
        rw [if_pos hp1, if_pos hp2]
        exact mul_le_mul_of_nonneg_right (by linarith) hrate
      | some l =>
        simp only [bracketTax, h1, h2, if_false, Option.getD_some, Option.isNone_some,
          Bool.false_eq_true, false_or]
        by_cases hb2 : i2 ≤ l
        · have hb1 : i1 ≤ l := le_trans h hb2
          rw [if_pos hb1, if_pos hb2, min_eq_left hb1, min_eq_left hb2,
            if_pos hp1, if_pos hp2]
          exact mul_le_mul_of_nonneg_right (by linarith) hrate
        · by_cases hb1 : i1 ≤ l
          · have hl2 : l ≤ i2 := le_of_not_le hb2
            have hlp : 0 < l - prev := by
              have := not_le.mp h1
              linarith
            rw [if_pos hb1, if_neg hb2, min_eq_left hb1, min_eq_right hl2,
              if_pos hp1, if_pos hlp]
            exact le_add_of_le_of_nonneg
              (mul_le_mul_of_nonneg_right (by linarith) hrate)
              (bracketTax_nonneg i2 _ _ hrtl)
          · have hl1 : l ≤ i1 := le_of_not_le hb1
            have hl2 : l ≤ i2 := le_trans hl1 h
            rw [if_neg hb1, if_neg hb2, min_eq_right hl1, min_eq_right hl2]
            exact add_le_add_left (ih _ hrtl) _

/-- All fallback bracket rates are nonnegative. -/
theorem fallback_rates_nonneg : ∀ p ∈ get_tax_brackets, (0:ℚ) ≤ p.2 := by
  intro p hp
  simp only [get_tax_brackets, FALLBACK_TAX_BRACKETS, List.mem_cons,
    List.not_mem_nil, or_false] at hp
  rcases hp with rfl | rfl | rfl | rfl | rfl | rfl | rfl <;> norm_num

/-- C3: annual tax is monotone in income: for incomes income2 > income1 at
or above 0 in the same age category over the same bracket table, the
computed annual_tax for income2 is at least that for income1. -/
theorem C3_annual_tax_monotone (age_category : String) (i1 i2 : ℚ)
    (h0 : 0 ≤ i1) (h : i1 < i2) :
    (calculate_annual_tax_impl i1 age_category).annual_tax ≤
      (calculate_annual_tax_impl i2 age_category).annual_tax := by
  simp only [calculate_annual_tax_impl]
  exact max_le_max le_rfl
    (sub_le_sub_right (bracketTax_mono h.le _ 0 fallback_rates_nonneg) _)

/-- Witness for C3 at incomes 100000 and 500000. -/
theorem C3_annual_tax_monotone_witness :
    (0:ℚ) ≤ 100000 ∧ (100000:ℚ) < 500000 ∧
    (calculate_annual_tax_impl 100000 "under_65").annual_tax ≤
      (calculate_annual_tax_impl 500000 "under_65").annual_tax :=
  ⟨by norm_num, by norm_num,
    C3_annual_tax_monotone "under_65" 100000 500000 (by norm_num) (by norm_num)⟩

/-! ## Claim C6 -/

theorem cbCall_closed_failure (cfg : CircuitBreakerConfig) (s : CBState) (t : ℚ)
    (hs : s.state = .closed) :
    cbCall cfg s t false =
      (some false,
       if cfg.failure_threshold ≤ s.failures + 1 then
         { s with state := .opened, timestamp := t, failures := s.failures + 1 }
       else { s with failures := s.failures + 1 }) := by
  simp [cbCall, handle_failure, hs]

theorem cbCall_closed_success (cfg : CircuitBreakerConfig) (s : CBState) (t : ℚ)
    (hs : s.state = .closed) :
    cbCall cfg s t true = (some true, { s with failures := 0 }) := by
  simp [cbCall, handle_success, hs]

theorem cbCall_halfopen_success (cfg : CircuitBreakerConfig) (s : CBState) (t : ℚ)
    (hs : s.state = .halfOpen) :
    cbCall cfg s t true =
      (some true,
       if cfg.success_threshold ≤ s.successes + 1 then
         { state := .closed, timestamp := t, failures := 0, successes := 0 }
       else { s with successes := s.successes + 1 }) := by
  simp [cbCall, handle_success, hs]

theorem cbCall_halfopen_failure (cfg : CircuitBreakerConfig) (s : CBState) (t : ℚ)
    (hs : s.state = .halfOpen) :
    cbCall cfg s t false =
      (some false, { s with state := .opened, timestamp := t, successes := 0 }) := by
  simp [cbCall, handle_failure, hs]

theorem cbCall_open_blocked (cfg : CircuitBreakerConfig) (s : CBState) (t : ℚ) (b : Bool)
    (hs : s.state = .opened) (htime : ¬ cfg.recovery_timeout < t - s.timestamp) :
    cbCall cfg s t b = (Option.none, s) := by
  simp [cbCall, hs, htime]

theorem cbCall_open_trial (cfg : CircuitBreakerConfig) (s : CBState) (t : ℚ) (b : Bool)
    (hs : s.state = .opened) (htime : cfg.recovery_timeout < t - s.timestamp) :
    cbCall cfg s t b =
      (some b,
       if b then
         (if cfg.success_threshold ≤ 1 then
            { state := .closed, timestamp := t, failures := 0, successes := 0 }
          else { s with state := .halfOpen, timestamp := t, successes := 1 })
       else { s with state := .opened, timestamp := t, successes := 0 }) := by
  cases b <;> simp [cbCall, handle_success, handle_failure, hs, htime]

/-- Consecutive failures below the threshold leave the breaker CLOSED and
only advance the failure counter. -/
theorem cbRun_closed_failures (cfg : CircuitBreakerConfig) :
    ∀ (ts : List ℚ) (s : CBState), s.state = .closed →
      s.failures + ts.length < cfg.failure_threshold →
      cbRun cfg s (ts.map (fun t => (t, false))) =
        { s with failures := s.failures + ts.length } := by
  intro ts
  induction ts with
  | nil =>
    intro s hs _
    simp [cbRun]
  | cons t ts ih =>
    intro s hs hlt
    simp only [List.map_cons, cbRun, List.foldl_cons]
    rw [cbCall_closed_failure cfg s t hs]
    simp only [List.length_cons] at hlt
    rw [if_neg (by omega)]
    have := ih { s with failures := s.failures + 1 } (by simp [hs]) (by simp; omega)
    simp only [cbRun] at this
    rw [this]
    simp only [CBState.mk.injEq, List.length_cons, true_and, and_true]
    omega

/-- The failure that reaches the threshold transitions the breaker to
OPEN. -/
theorem cbRun_closed_opens (cfg : CircuitBreakerConfig) :
    ∀ (ts : List ℚ) (s : CBState), s.state = .closed →
      s.failures + ts.length = cfg.failure_threshold → ts ≠ [] →
      (cbRun cfg s (ts.map (fun t => (t, false)))).state = .opened := by
  intro ts
  induction ts with
  | nil => intro s _ _ hne; exact absurd rfl hne
  | cons t ts ih =>
    intro s hs heq _
    simp only [List.map_cons, cbRun, List.foldl_cons]
    simp only [List.length_cons] at heq
    cases ts with
    | nil =>
      rw [cbCall_closed_failure cfg s t hs, if_pos (by simp at heq; omega)]
      simp [cbRun]
    | cons t2 ts2 =>
      rw [cbCall_closed_failure cfg s t hs, if_neg (by simp at heq ⊢; omega)]
      have := ih { s with failures := s.failures + 1 } (by simp [hs]) (by simp at heq ⊢; omega)
        (by simp)
      simpa [cbRun] using this

/-- Consecutive successes below the threshold keep the breaker HALF_OPEN and
only advance the success counter. -/
theorem cbRun_halfopen_successes (cfg : CircuitBreakerConfig) :
    ∀ (ts : List ℚ) (s : CBState), s.state = .halfOpen →
      s.successes + ts.length < cfg.success_threshold →
      cbRun cfg s (ts.map (fun t => (t, true))) =
        { s with successes := s.successes + ts.length } := by
  intro ts
  induction ts with
  | nil =>
    intro s hs _
    simp [cbRun]
  | cons t ts ih =>
    intro s hs hlt
    simp only [List.map_cons, cbRun, List.foldl_cons]
    rw [cbCall_halfopen_success cfg s t hs]
    simp only [List.length_cons] at hlt
    rw [if_neg (by omega)]
    have := ih { s with successes := s.successes + 1 } (by simp [hs]) (by simp; omega)
    simp only [cbRun] at this
    rw [this]
    simp only [CBState.mk.injEq, List.length_cons, true_and, and_true]
    omega

/-- The success that reaches the threshold closes the breaker and resets
both counters. -/
theorem cbRun_halfopen_closes (cfg : CircuitBreakerConfig) :
    ∀ (ts : List ℚ) (s : CBState), s.state = .halfOpen →
      s.successes + ts.length = cfg.success_threshold → ts ≠ [] →
      ∃ tc, cbRun cfg s (ts.map (fun t => (t, true))) =
        { state := .closed, timestamp := tc, failures := 0, successes := 0 } := by
  intro ts
  induction ts with
  | nil => intro s _ _ hne; exact absurd rfl hne
  | cons t ts ih =>
    intro s hs heq _
    simp only [List.map_cons, cbRun, List.foldl_cons]
    simp only [List.length_cons] at heq
    cases ts with
    | nil =>
      rw [cbCall_halfopen_success cfg s t hs, if_pos (by simp at heq; omega)]
      exact ⟨t, by simp [cbRun]⟩
    | cons t2 ts2 =>
      rw [cbCall_halfopen_success cfg s t hs, if_neg (by simp at heq ⊢; omega)]
      have := ih { s with successes := s.successes + 1 } (by simp [hs]) (by simp at heq ⊢; omega)
        (by simp)
      simpa [cbRun] using this

/-- C6: the circuit breaker follows the specified state machine: starting
CLOSED, failure_threshold consecutive failures leave it OPEN; while OPEN a
call before the recovery timeout has elapsed raises CircuitBreakerOpenError
without invoking the wrapped function or changing state; after the timeout
the next call is allowed through as a HALF_OPEN trial; success_threshold
consecutive successes in HALF_OPEN close it with both counters reset; any
single failure in HALF_OPEN reopens it. -/
theorem C6_circuit_breaker_state_machine (cfg : CircuitBreakerConfig)
    (hf : 1 ≤ cfg.failure_threshold) (hsc : 1 ≤ cfg.success_threshold) :
    (∀ ts : List ℚ, ts.length = cfg.failure_threshold →
      (cbRun cfg CBState.initial (ts.map (fun t => (t, false)))).state = .opened) ∧
    (∀ (s : CBState) (now : ℚ) (b : Bool), s.state = .opened →
      now - s.timestamp < cfg.recovery_timeout → cbCall cfg s now b = (Option.none, s)) ∧
    (∀ (s : CBState) (now : ℚ) (b : Bool), s.state = .opened →
      cfg.recovery_timeout < now - s.timestamp →
      (cbCall cfg s now b).1 = some b ∧
      (cbCall cfg s now false).2.state = .opened ∧
      (1 < cfg.success_threshold → (cbCall cfg s now true).2.state = .halfOpen)) ∧
    (∀ (ts : List ℚ) (s : CBState), s.state = .halfOpen → s.successes = 0 →
      ts.length = cfg.success_threshold →
      (cbRun cfg s (ts.map (fun t => (t, true)))).state = .closed ∧
      (cbRun cfg s (ts.map (fun t => (t, true)))).failures = 0 ∧
      (cbRun cfg s (ts.map (fun t => (t, true)))).successes = 0) ∧
    (∀ (s : CBState) (now : ℚ), s.state = .halfOpen →
      (cbCall cfg s now false).2.state = .opened) := by
  refine ⟨?_, ?_, ?_, ?_, ?_⟩
  · intro ts hlen
    exact cbRun_closed_opens cfg ts CBState.initial rfl (by simpa [CBState.initial])
      (List.length_pos.mp (by omega))
  · intro s now b hs htime
    exact cbCall_open_blocked cfg s now b hs (by intro hlt; linarith)
  · intro s now b hs htime
    refine ⟨?_, ?_, ?_⟩
    · rw [cbCall_open_trial cfg s now b hs htime]
    · rw [cbCall_open_trial cfg s now false hs htime]
      simp
    · intro hthr
      rw [cbCall_open_trial cfg s now true hs htime]
      simp [show ¬(cfg.success_threshold ≤ 1) from by omega]
  · intro ts s hs hzero hlen
    obtain ⟨tc, hrun⟩ := cbRun_halfopen_closes cfg ts s hs (by omega)
      (List.length_pos.mp (by omega))
    rw [hrun]
    exact ⟨rfl, rfl, rfl⟩
  · intro s now hs
    rw [cbCall_halfopen_failure cfg s now hs]

/-- Witness for C6 with thresholds 2, recovery timeout 30. -/
theorem C6_circuit_breaker_state_machine_witness :
    (cbRun ⟨2, 30, 2⟩ CBState.initial ([(1:ℚ), 2].map (fun t => (t, false)))).state
      = .opened ∧
    cbCall ⟨2, 30, 2⟩ ⟨.opened, 100, 2, 0⟩ 120 true = (Option.none, ⟨.opened, 100, 2, 0⟩) ∧
    (cbCall ⟨2, 30, 2⟩ ⟨.opened, 100, 2, 0⟩ 200 true).1 = some true ∧
    (cbCall ⟨2, 30, 2⟩ ⟨.opened, 100, 2, 0⟩ 200 false).2.state = .opened ∧
    (cbCall ⟨2, 30, 2⟩ ⟨.opened, 100, 2, 0⟩ 200 true).2.state = .halfOpen ∧
    (cbRun ⟨2, 30, 2⟩ ⟨.halfOpen, 200, 2, 0⟩ ([(300:ℚ), 301].map (fun t => (t, true)))).state
      = .closed ∧
    (cbCall ⟨2, 30, 2⟩ ⟨.halfOpen, 200, 2, 0⟩ 205 false).2.state = .opened := by
  obtain ⟨h1, h2, h3, h4, h5⟩ :=
    C6_circuit_breaker_state_machine ⟨2, 30, 2⟩ (by norm_num) (by norm_num)
  obtain ⟨ht1, ht2, ht3⟩ := h3 ⟨.opened, 100, 2, 0⟩ 200 true rfl (by norm_num)
  refine ⟨h1 [1, 2] rfl, h2 ⟨.opened, 100, 2, 0⟩ 120 true rfl (by norm_num),
    ht1, ht2, ht3 (by norm_num), ?_,
    h5 ⟨.halfOpen, 200, 2, 0⟩ 205 rfl⟩
  exact (h4 [300, 301] ⟨.halfOpen, 200, 2, 0⟩ rfl rfl rfl).1

/-! ## Claim C7 -/

theorem mem_of_lookup_eq_some {α β : Type} [BEq α] [LawfulBEq α]
    {l : List (α × β)} {k : α} {v : β} (h : l.lookup k = some v) : (k, v) ∈ l := by
  induction l with
  | nil => simp [List.lookup] at h
  | cons hd tl ih =>
    obtain ⟨k0, v0⟩ := hd
    cases hbeq : (k == k0) with
    | true =>
      have hk0 : k = k0 := eq_of_beq hbeq
      simp only [List.lookup, hbeq, Option.some.injEq] at h
      subst hk0
      rw [h]
      exact List.mem_cons_self _ _
    | false =>
      simp only [List.lookup, hbeq] at h
      exact List.mem_cons_of_mem _ (ih h)

theorem lookup_eq_some_of_mem_nodup {α β : Type} [BEq α] [LawfulBEq α] {l : List (α × β)}
    (hnd : (l.map Prod.fst).Nodup) {k : α} {v : β} (hm : (k, v) ∈ l) :
    l.lookup k = some v := by
  induction l with
  | nil => simp at hm
  | cons hd tl ih =>
    obtain ⟨k0, v0⟩ := hd
    simp only [List.map_cons, List.nodup_cons] at hnd
    rcases List.mem_cons.mp hm with heq | hm2
    · obtain ⟨rfl, rfl⟩ := Prod.mk.injEq .. ▸ heq
      · simp [List.lookup]
    · have hk : (k == k0) = false := by
        refine beq_eq_false_iff_ne.mpr fun hkk => ?_
        subst hkk
        exact hnd.1 (List.mem_map_of_mem Prod.fst hm2)
      simp only [List.lookup, hk]
      exact ih hnd.2 hm2

theorem lookup_filter_window {l : List (ℤ × ℕ)} {lo t : ℤ} (h : lo < t) :
    (l.filter (fun p => decide (lo < p.1))).lookup t = l.lookup t := by
  induction l with
  | nil => rfl
  | cons hd tl ih =>
    obtain ⟨k0, v0⟩ := hd
    cases hbeq : ((t : ℤ) == k0) with
    | true =>
      have hk0 : t = k0 := eq_of_beq hbeq
      have hdec : decide (lo < k0) = true := by subst hk0; simpa using h
      simp [List.filter_cons, hdec, List.lookup, hbeq]
    | false =>
      cases hdec : decide (lo < k0) with
      | true => simp [List.filter_cons, hdec, List.lookup, hbeq, ih]
      | false => simp [List.filter_cons, hdec, List.lookup, hbeq, ih]

theorem mem_alistSet {α β : Type} [BEq α] [LawfulBEq α] {l : List (α × β)} {k : α} {v : β}
    {p : α × β} (h : p ∈ alistSet l k v) : p ∈ l ∨ p = (k, v) := by
  induction l with
  | nil =>
    right
    simpa [alistSet] using h
  | cons hd tl ih =>
    obtain ⟨k0, v0⟩ := hd
    by_cases hk : (k0 == k) = true
    · simp only [alistSet, hk, if_true] at h
      rcases List.mem_cons.mp h with heq | hm
      · right
        rw [heq, eq_of_beq hk]
      · left
        exact List.mem_cons_of_mem _ hm
    · rw [alistSet, if_neg hk] at h
      rcases List.mem_cons.mp h with heq | hm
      · left
        exact heq ▸ List.mem_cons_self _ _
      · rcases ih hm with h1 | h2
        · left
          exact List.mem_cons_of_mem _ h1
        · right
          exact h2

theorem alistSet_keys_nodup {α β : Type} [BEq α] [LawfulBEq α] {l : List (α × β)}
    (h : (l.map Prod.fst).Nodup) (k : α) (v : β) :
    ((alistSet l k v).map Prod.fst).Nodup := by
  induction l with
  | nil => simp [alistSet]
  | cons hd tl ih =>
    obtain ⟨k0, v0⟩ := hd
    simp only [List.map_cons, List.nodup_cons] at h
    by_cases hk : (k0 == k) = true
    · simp only [alistSet, hk, if_true, List.map_cons, List.nodup_cons]
      exact ⟨h.1, h.2⟩
    · rw [alistSet, if_neg hk]
      simp only [List.map_cons, List.nodup_cons]
      refine ⟨?_, ih h.2⟩
      intro hmem
      obtain ⟨p, hp, hfst⟩ := List.mem_map.mp hmem
      rcases mem_alistSet hp with h1 | h2
      · exact h.1 (hfst ▸ List.mem_map_of_mem Prod.fst h1)
      · apply hk
        rw [h2] at hfst
        have hk0k : k = k0 := hfst
        rw [show k0 = k from hk0k.symm]
        exact beq_self_eq_true k

theorem histCountAt_append (hist : List (ℤ × Bool)) (q : ℤ × Bool) (t : ℤ) :
    histCountAt (hist ++ [q]) t =
      histCountAt hist t + (if q.1 = t ∧ q.2 = true then 1 else 0) := by
  unfold histCountAt
  rw [List.countP_append]
  congr 1
  obtain ⟨tq, b⟩ := q
  cases b <;> simp [List.countP_cons] <;> split_ifs <;> simp_all

theorem windowSuccesses_append (hist : List (ℤ × Bool)) (q : ℤ × Bool) (lo hi : ℤ) :
    windowSuccesses (hist ++ [q]) lo hi =
      windowSuccesses hist lo hi + (if lo < q.1 ∧ q.1 ≤ hi ∧ q.2 = true then 1 else 0) := by
  unfold windowSuccesses
  rw [List.countP_append]
  congr 1
  obtain ⟨tq, b⟩ := q
  cases b <;> simp [List.countP_cons] <;> split_ifs <;> simp_all <;> omega

theorem countP_or_split {α : Type} (l : List α) (P Q : α → Bool)
    (h : ∀ a ∈ l, ¬(P a = true ∧ Q a = true)) :
    l.countP (fun a => P a || Q a) = l.countP P + l.countP Q := by
  induction l with
  | nil => simp
  | cons a l ih =>
    simp only [List.countP_cons]
    rw [ih (fun b hb => h b (List.mem_cons_of_mem _ hb))]
    have := h a (List.mem_cons_self _ _)
    cases hP : P a <;> cases hQ : Q a <;> simp [hP, hQ] at this ⊢ <;> omega

theorem keys_sum_eq_countP (hist : List (ℤ × Bool)) :
    ∀ keys : List ℤ, keys.Nodup →
      (keys.map (histCountAt hist)).sum
        = hist.countP (fun q => decide (q.1 ∈ keys) && q.2) := by
  intro keys
  induction keys with
  | nil => simp
  | cons k ks ih =>
    intro hnd
    simp only [List.nodup_cons] at hnd
    simp only [List.map_cons, List.sum_cons]
    rw [ih hnd.2]
    have hsplit : hist.countP (fun q => decide (q.1 ∈ k :: ks) && q.2)
        = hist.countP (fun q => (decide (q.1 = k) && q.2) || (decide (q.1 ∈ ks) && q.2)) := by
      apply List.countP_congr
      intro q _
      simp only [List.mem_cons, Bool.and_eq_true, Bool.or_eq_true, decide_eq_true_eq]
      tauto
    rw [hsplit, countP_or_split]
    · rfl
    · intro q _
      simp only [Bool.and_eq_true, decide_eq_true_eq]
      rintro ⟨⟨hq1, -⟩, hq2, -⟩
      exact hnd.1 (hq1 ▸ hq2)

/-- is_allowed with its let-bindings expanded. -/
theorem is_allowed_eq (maxR : ℕ) (w : ℤ) (store : List (ℤ × ℕ)) (now : ℤ) :
    is_allowed maxR w store now =
      if maxR ≤ ((store.filter (fun p => decide (now - w < p.1))).map Prod.snd).sum
      then (false, store)
      else (true, alistSet (store.filter (fun p => decide (now - w < p.1))) now
        (((store.filter (fun p => decide (now - w < p.1))).lookup now).getD 0 + 1)) := rfl

/-- Under the invariant, the pruned-window total computed by is_allowed is
exactly the number of recorded successes in the trailing window. -/
theorem total_eq_windowSuccesses {w : ℤ} {store : List (ℤ × ℕ)} {hist : List (ℤ × Bool)}
    {tcur : ℤ} (hinv : rlInv w store hist tcur) {now : ℤ} (hnow : tcur ≤ now) :
    ((store.filter (fun p => decide (now - w < p.1))).map Prod.snd).sum
      = windowSuccesses hist (now - w) now := by
  obtain ⟨hnd, hkeys, hhist, hcnt⟩ := hinv
  have hndc : ((store.filter (fun p => decide (now - w < p.1))).map Prod.fst).Nodup :=
    hnd.sublist ((List.filter_sublist store).map Prod.fst)
  have hsnd : ∀ p ∈ store.filter (fun p => decide (now - w < p.1)),
      p.2 = histCountAt hist p.1 := by
    intro p hp
    obtain ⟨a, b⟩ := p
    have hpstore : (a, b) ∈ store := List.mem_of_mem_filter hp
    have hplo : now - w < a := by simpa using List.of_mem_filter hp
    have hlook : store.lookup a = some b := lookup_eq_some_of_mem_nodup hnd hpstore
    have := hcnt a (by omega)
    rw [hlook] at this
    simpa using this
  rw [List.map_congr_left hsnd, show
      (store.filter (fun p => decide (now - w < p.1))).map (fun p => histCountAt hist p.1)
        = ((store.filter (fun p => decide (now - w < p.1))).map Prod.fst).map
            (histCountAt hist) from by rw [List.map_map]; rfl,
    keys_sum_eq_countP hist _ hndc]
  unfold windowSuccesses
  apply List.countP_congr
  intro q hq
  obtain ⟨tq, b⟩ := q
  cases b with
  | false => simp
  | true =>
    simp only [Bool.and_true, Bool.and_eq_true, decide_eq_true_eq]
    constructor
    · intro hmem
      obtain ⟨p, hp, hfst⟩ := List.mem_map.mp hmem
      have hplo : now - w < p.1 := by simpa using List.of_mem_filter hp
      have : tq ≤ tcur := hhist (tq, true) hq
      exact ⟨hfst ▸ hplo, by omega⟩
    · rintro ⟨hlo, -⟩
      have hpos : 0 < histCountAt hist tq := by
        refine List.countP_pos_iff.mpr ⟨(tq, true), hq, by simp⟩
      have hcq := hcnt tq (by omega)
      cases hlk : store.lookup tq with
      | none => rw [hlk] at hcq; simp at hcq; omega
      | some c =>
        rw [hlk] at hcq
        simp only [Option.getD_some] at hcq
        have hmem : (tq, c) ∈ store := mem_of_lookup_eq_some hlk
        refine List.mem_map.mpr ⟨(tq, c), ?_, rfl⟩
        exact List.mem_filter.mpr ⟨hmem, by simpa using hlo⟩

/-- The decision of is_allowed under the invariant: allowed exactly when the
trailing window holds fewer than max_requests recorded successes. -/
theorem is_allowed_decision (maxR : ℕ) {w : ℤ} {store : List (ℤ × ℕ)}
    {hist : List (ℤ × Bool)} {tcur : ℤ} (hinv : rlInv w store hist tcur)
    {now : ℤ} (hnow : tcur ≤ now) :
    (is_allowed maxR w store now).1
      = decide (windowSuccesses hist (now - w) now < maxR) := by
  rw [is_allowed_eq, total_eq_windowSuccesses hinv hnow]
  split_ifs with hc
  · exact (decide_eq_false (by omega)).symm
  · exact (decide_eq_true (by omega)).symm

/-- One is_allowed call preserves the store/history invariant. -/
theorem rlInv_step (maxR : ℕ) {w : ℤ} (hw : 0 < w) {store : List (ℤ × ℕ)}
    {hist : List (ℤ × Bool)} {tcur : ℤ} (hinv : rlInv w store hist tcur)
    {now : ℤ} (hnow : tcur ≤ now) :
    rlInv w (is_allowed maxR w store now).2
      (hist ++ [(now, (is_allowed maxR w store now).1)]) now := by
  obtain ⟨hnd, hkeys, hhist, hcnt⟩ := hinv
  rw [is_allowed_eq]
  split_ifs with hc
  · refine ⟨hnd, fun p hp => le_trans (hkeys p hp) hnow, ?_, ?_⟩
    · intro q hq
      rcases List.mem_append.mp hq with h1 | h2
      · exact le_trans (hhist q h1) hnow
      · simp only [List.mem_singleton] at h2
        rw [h2]
    · intro t ht
      rw [histCountAt_append]
      simp only [Bool.false_eq_true, and_false, if_false, Nat.add_zero]
      exact hcnt t (by omega)
  · have hndc : ((store.filter (fun p => decide (now - w < p.1))).map Prod.fst).Nodup :=
      hnd.sublist ((List.filter_sublist store).map Prod.fst)
    refine ⟨alistSet_keys_nodup hndc now _, ?_, ?_, ?_⟩
    · intro p hp
      rcases mem_alistSet hp with h1 | h2
      · exact le_trans (hkeys p (List.mem_of_mem_filter h1)) hnow
      · rw [h2]
    · intro q hq
      rcases List.mem_append.mp hq with h1 | h2
      · exact le_trans (hhist q h1) hnow
      · simp only [List.mem_singleton] at h2
        rw [h2]
    · intro t ht
      rw [histCountAt_append]
      by_cases htn : t = now
      · subst htn
        rw [alistSet_lookup_self, lookup_filter_window (show t - w < t by omega),
          Option.getD_some, hcnt t (by omega)]
        simp
      · rw [alistSet_lookup_ne _ _ _ _ htn,
          lookup_filter_window (show now - w < t from ht), hcnt t (by omega)]
        have : ¬((now, (true : Bool)).1 = t ∧ (now, (true : Bool)).2 = true) := by
          simp only [not_and]
          intro hcon
          exact absurd hcon.symm htn
        rw [if_neg this]
        omega

/-- Rolling-window bound: running any sorted trace preserves the property
that every window of width w holds at most max_requests recorded
successes. -/
theorem rlRun_window_bound (maxR : ℕ) {w : ℤ} (hw : 0 < w) :
    ∀ (ts : List ℤ) (store : List (ℤ × ℕ)) (hist : List (ℤ × Bool)) (tcur : ℤ),
      rlInv w store hist tcur → (∀ t ∈ ts, tcur ≤ t) → List.Sorted (· ≤ ·) ts →
      (∀ t1 : ℤ, windowSuccesses hist t1 (t1 + w) ≤ maxR) →
      ∀ t0 : ℤ,
        windowSuccesses (hist ++ ts.zip (rlRun maxR w store ts).1) t0 (t0 + w) ≤ maxR := by
  intro ts
  induction ts with
  | nil =>
    intro store hist tcur hinv hts hsort hQ t0
    simpa [rlRun] using hQ t0
  | cons now ts ih =>
    intro store hist tcur hinv hts hsort hQ t0
    have hnow : tcur ≤ now := hts now (List.mem_cons_self _ _)
    have hinv1 := rlInv_step maxR hw hinv hnow
    have hdec := is_allowed_decision maxR hinv hnow
    have hsort2 := List.sorted_cons.mp hsort
    have hQ1 : ∀ t1 : ℤ,
        windowSuccesses (hist ++ [(now, (is_allowed maxR w store now).1)]) t1 (t1 + w)
          ≤ maxR := by
      intro t1
      rw [windowSuccesses_append]
      cases hb : (is_allowed maxR w store now).1 with
      | false => simpa using hQ t1
      | true =>
        have hws : windowSuccesses hist (now - w) now < maxR := by
          rw [hb] at hdec
          exact of_decide_eq_true hdec.symm
        split_ifs with hin
        · have hmono : windowSuccesses hist t1 (t1 + w)
              ≤ windowSuccesses hist (now - w) now := by
            apply List.countP_mono_left
            intro q hq hq2
            simp only [Bool.and_eq_true, decide_eq_true_eq] at hq2 ⊢
            have hqt : q.1 ≤ tcur := hinv.2.2.1 q hq
            obtain ⟨⟨h1, h2⟩, h3⟩ := hq2
            refine ⟨⟨by omega, by omega⟩, h3⟩
          omega
        · simpa using hQ t1
    have hgoal := ih (is_allowed maxR w store now).2
      (hist ++ [(now, (is_allowed maxR w store now).1)]) now hinv1 hsort2.1 hsort2.2 hQ1 t0
    simp only [rlRun, List.zip_cons_cons]
    rw [show hist ++ ((now, (is_allowed maxR w store now).1) ::
        ts.zip (rlRun maxR w (is_allowed maxR w store now).2 ts).1)
      = (hist ++ [(now, (is_allowed maxR w store now).1)]) ++
        ts.zip (rlRun maxR w (is_allowed maxR w store now).2 ts).1 from by simp]
    exact hgoal

/-- Exactness within one window: running a sorted trace that lies entirely
inside the window (t0, t0 + w], the calls are allowed until the recorded
success count reaches max_requests and rejected afterwards. -/
theorem rlRun_one_window (maxR : ℕ) {w : ℤ} (hw : 0 < w) (t0 : ℤ) :
    ∀ (ts : List ℤ) (store : List (ℤ × ℕ)) (hist : List (ℤ × Bool)) (tcur : ℤ),
      rlInv w store hist tcur → List.Sorted (· ≤ ·) ts →
      (∀ t ∈ ts, tcur ≤ t ∧ t0 < t ∧ t ≤ t0 + w) →
      (∀ q ∈ hist, q.2 = true → t0 < q.1) →
      hist.countP (fun q => q.2) ≤ maxR →
      (rlRun maxR w store ts).1
        = (List.range ts.length).map
            (fun j => decide (hist.countP (fun q => q.2) + j < maxR)) := by
  intro ts
  induction ts with
  | nil =>
    intro store hist tcur hinv hsort hts hwin hc
    simp [rlRun]
  | cons now ts ih =>
    intro store hist tcur hinv hsort hts hwin hc
    obtain ⟨hnow, ht0now, hnoww⟩ := hts now (List.mem_cons_self _ _)
    have hdec := is_allowed_decision maxR hinv hnow
    have hws : windowSuccesses hist (now - w) now = hist.countP (fun q => q.2) := by
      unfold windowSuccesses
      apply List.countP_congr
      intro q hq
      cases hq2 : q.2 with
      | false => simp [hq2]
      | true =>
        have h1 : t0 < q.1 := hwin q hq hq2
        have h2 : q.1 ≤ tcur := hinv.2.2.1 q hq
        simp only [hq2, Bool.and_true, Bool.and_eq_true, decide_eq_true_eq]
        constructor
        · intro _
          trivial
        · intro _
          exact ⟨by omega, by omega⟩
    have hb : (is_allowed maxR w store now).1
        = decide (hist.countP (fun q => q.2) < maxR) := by rw [hdec, hws]
    have hinv1 := rlInv_step maxR hw hinv hnow
    have hsort2 := List.sorted_cons.mp hsort
    have hts2 : ∀ t ∈ ts, now ≤ t ∧ t0 < t ∧ t ≤ t0 + w := by
      intro t ht
      exact ⟨hsort2.1 t ht, (hts t (List.mem_cons_of_mem _ ht)).2⟩
    have hwin1 : ∀ q ∈ hist ++ [(now, (is_allowed maxR w store now).1)],
        q.2 = true → t0 < q.1 := by
      intro q hq hq2
      rcases List.mem_append.mp hq with h1 | h2
      · exact hwin q h1 hq2
      · simp only [List.mem_singleton] at h2
        rw [h2]
        exact ht0now
    simp only [rlRun, List.length_cons, List.range_succ_eq_map, List.map_cons, List.map_map]
    cases hball : (is_allowed maxR w store now).1 with
    | true =>
      have hlt : hist.countP (fun q => q.2) < maxR := by
        rw [hball] at hb
        exact of_decide_eq_true hb.symm
      have hcount1 : (hist ++ [(now, (is_allowed maxR w store now).1)]).countP
          (fun q => q.2) = hist.countP (fun q => q.2) + 1 := by
        rw [List.countP_append, hball]
        simp
      congr 1
      · exact (decide_eq_true (by omega)).symm
      · rw [ih (is_allowed maxR w store now).2
          (hist ++ [(now, (is_allowed maxR w store now).1)]) now hinv1 hsort2.2 hts2
          hwin1 (by omega), hcount1]
        apply List.map_congr_left
        intro j _
        simp only [Function.comp_apply]
        exact decide_eq_decide.mpr (by omega)
    | false =>
      have hge : maxR ≤ hist.countP (fun q => q.2) := by
        rw [hball] at hb
        have := of_decide_eq_false hb.symm
        omega
      have hcount1 : (hist ++ [(now, (is_allowed maxR w store now).1)]).countP
          (fun q => q.2) = hist.countP (fun q => q.2) := by
        rw [List.countP_append, hball]
        simp
      congr 1
      · exact (decide_eq_false (by omega)).symm
      · rw [ih (is_allowed maxR w store now).2
          (hist ++ [(now, (is_allowed maxR w store now).1)]) now hinv1 hsort2.2 hts2
          hwin1 (by omega), hcount1]
        apply List.map_congr_left
        intro j _
        simp only [Function.comp_apply]
        exact decide_eq_decide.mpr (by omega)

/-- C7: a rejected is_allowed call leaves the stored request dictionary
unchanged (it does not consume budget); within any rolling window of
window_seconds at most max_requests calls return true; and for calls all
falling inside one window starting from a fresh store, exactly the first
max_requests calls return true and every later one, in particular the
(max_requests+1)-th, returns false. -/
theorem C7_rate_limiter_window (maxR : ℕ) (w : ℤ) (hw : 0 < w) :
    (∀ (store : List (ℤ × ℕ)) (now : ℤ),
      (is_allowed maxR w store now).1 = false → (is_allowed maxR w store now).2 = store) ∧
    (∀ (ts : List ℤ) (tstart : ℤ), List.Sorted (· ≤ ·) ts → (∀ t ∈ ts, tstart ≤ t) →
      ∀ t0 : ℤ, windowSuccesses (ts.zip (rlRun maxR w [] ts).1) t0 (t0 + w) ≤ maxR) ∧
    (∀ (ts : List ℤ) (t0 : ℤ), List.Sorted (· ≤ ·) ts →
      (∀ t ∈ ts, t0 < t ∧ t ≤ t0 + w) →
      (rlRun maxR w [] ts).1
        = (List.range ts.length).map (fun j => decide (j < maxR))) := by
  have hinv0 : ∀ tc : ℤ, rlInv w [] [] tc := by
    intro tc
    refine ⟨List.nodup_nil, by simp, by simp, ?_⟩
    intro t _
    simp [List.lookup, histCountAt]
  refine ⟨?_, ?_, ?_⟩
  · intro store now h
    rw [is_allowed_eq] at h ⊢
    split_ifs at h ⊢ with hc
    rfl
  · intro ts tstart hsort hts t0
    have := rlRun_window_bound maxR hw ts [] [] tstart (hinv0 tstart) hts hsort
      (by intro t1; simp [windowSuccesses]) t0
    simpa using this
  · intro ts t0 hsort hts
    have := rlRun_one_window maxR hw t0 ts [] [] t0 (hinv0 t0) hsort
      (fun t ht => ⟨(hts t ht).1.le, hts t ht⟩) (by simp) (by simp)
    simpa using this

/-- Witness for C7 with max_requests 2 and a 60 second window. -/
theorem C7_rate_limiter_window_witness :
    ((is_allowed 2 60 [(100, 2)] 120).1 = false →
      (is_allowed 2 60 [(100, 2)] 120).2 = [(100, 2)]) ∧
    (is_allowed 2 60 [(100, 2)] 120).1 = false ∧
    windowSuccesses ([(10 : ℤ), 20, 30].zip (rlRun 2 60 [] [10, 20, 30]).1) 0 (0 + 60)
      ≤ 2 ∧
    (rlRun 2 60 [] [(10 : ℤ), 20, 30]).1 = [true, true, false] := by
  obtain ⟨h1, h2, h3⟩ := C7_rate_limiter_window 2 60 (by norm_num)
  refine ⟨h1 [(100, 2)] 120, by decide, ?_, ?_⟩
  · exact h2 [10, 20, 30] 5 (by decide) (by decide) 0
  · rw [h3 [10, 20, 30] 0 (by decide) (by decide)]
    decide

end Moneyrite
